import Mathlib

/-!
Verification development for the claude-code-costs analyzer core
(`src/lib/security.js` parser half, `src/lib/monitor.js`, the
`ConversationAnalyzer` and `ConfigManager` modules).

Modelling conventions, fixed once for the whole file:
* JavaScript numbers are modelled as exact rationals (`ℚ`) for costs and
  rates, and as `Nat` for token counters; timestamps are milliseconds since
  the epoch (`Int`), matching `Date` subtraction semantics.
* An absent JSON field is `Option.none`; JS truthiness of a string field is
  "present and non-empty" (`strTruthy`).
* A log line is either a parse failure (`Line.malformed`, the `catch` path
  of `JSON.parse`) or a parsed message record (`Line.ok`).
-/

/-- Usage counters of one assistant message (the `message.message.usage`
object of a log line); each counter may be absent. -/
structure Usage where
  input_tokens : Option Nat := none
  output_tokens : Option Nat := none
  cache_creation_input_tokens : Option Nat := none
  cache_read_input_tokens : Option Nat := none
  deriving DecidableEq, Repr

/-- One pricing row: cost per one million tokens for each token category. -/
structure Pricing where
  input : ℚ
  output : ℚ
  cache_write : ℚ
  cache_read : ℚ
  deriving DecidableEq, Repr

/-- The pricing object handed to `ConversationParser`: model-keyed rows plus
the mandatory `default` row (the CLI's `CLAUDE_PRICING` literal carries both). -/
structure PricingTable where
  entries : List (String × Pricing)
  dflt : Pricing
  deriving DecidableEq, Repr

/-- `ConversationParser.calculateCost` (security.js, parser half, lines
205-216): per-category cost at the row for `model`, falling back to the
`default` row, each term divided by one million. -/
def calculateCost (tbl : PricingTable) (usage : Option Usage) (model : String) : ℚ :=
  match usage with
  | none => 0
  | some u =>
    let pricing := (List.lookup model tbl.entries).getD tbl.dflt
    let inputCost := ((u.input_tokens.getD 0 : ℚ) * pricing.input) / 1000000
    let outputCost := ((u.output_tokens.getD 0 : ℚ) * pricing.output) / 1000000
    let cacheWriteCost := ((u.cache_creation_input_tokens.getD 0 : ℚ) * pricing.cache_write) / 1000000
    let cacheReadCost := ((u.cache_read_input_tokens.getD 0 : ℚ) * pricing.cache_read) / 1000000
    inputCost + outputCost + cacheWriteCost + cacheReadCost

/-- The token record built by `ConversationParser.calculateTokens`. -/
structure UsageTokens where
  total : Nat
  input : Nat
  output : Nat
  cacheWrite : Nat
  cacheRead : Nat
  deriving DecidableEq, Repr

/-- `ConversationParser.calculateTokens` (security.js, parser half, lines
218-231). -/
def calculateTokens (usage : Option Usage) : UsageTokens :=
  match usage with
  | none => ⟨0, 0, 0, 0, 0⟩
  | some u =>
    { total := u.input_tokens.getD 0 + u.output_tokens.getD 0 +
        u.cache_creation_input_tokens.getD 0 + u.cache_read_input_tokens.getD 0
      input := u.input_tokens.getD 0
      output := u.output_tokens.getD 0
      cacheWrite := u.cache_creation_input_tokens.getD 0
      cacheRead := u.cache_read_input_tokens.getD 0 }

/-- C1: for every usage object and model identifier, `calculateCost` returns
(input·rate.input + output·rate.output + cacheWrite·rate.cache_write +
cacheRead·rate.cache_read) / 1,000,000 where the rate row is the table entry
for the model, or the `default` row when the identifier is absent; the
function is total (never raises), and the unknown-model scenario with usage
input_tokens = 1,000,000 and default input rate 3.00 costs exactly 3.00. -/
theorem calculateCost_spec :
    (∀ (tbl : PricingTable) (u : Usage) (model : String),
      calculateCost tbl (some u) model =
        ((u.input_tokens.getD 0 : ℚ) * ((List.lookup model tbl.entries).getD tbl.dflt).input +
         (u.output_tokens.getD 0 : ℚ) * ((List.lookup model tbl.entries).getD tbl.dflt).output +
         (u.cache_creation_input_tokens.getD 0 : ℚ) *
           ((List.lookup model tbl.entries).getD tbl.dflt).cache_write +
         (u.cache_read_input_tokens.getD 0 : ℚ) *
           ((List.lookup model tbl.entries).getD tbl.dflt).cache_read) / 1000000) ∧
    calculateCost ⟨[], ⟨3, 15, 15/4, 3/10⟩⟩
      (some { input_tokens := some 1000000 }) "some-unknown-model" = 3 := by
  constructor
  · intro tbl u model
    simp only [calculateCost]
    ring
  · norm_num [calculateCost]

/-- C2: for every usage object, present or absent, the record returned by
`calculateTokens` has `total` equal to the sum of its four components, and
each component is the corresponding usage counter defaulted to zero. -/
theorem calculateTokens_total (usage : Option Usage) :
    (calculateTokens usage).total =
      (calculateTokens usage).input + (calculateTokens usage).output +
        (calculateTokens usage).cacheWrite + (calculateTokens usage).cacheRead ∧
    (calculateTokens usage).input = (usage.bind Usage.input_tokens).getD 0 ∧
    (calculateTokens usage).output = (usage.bind Usage.output_tokens).getD 0 ∧
    (calculateTokens usage).cacheWrite = (usage.bind Usage.cache_creation_input_tokens).getD 0 ∧
    (calculateTokens usage).cacheRead = (usage.bind Usage.cache_read_input_tokens).getD 0 := by
  cases usage <;> simp [calculateTokens]

/-- JS string truthiness for an optional string field: present and non-empty. -/
def strTruthy : Option String → Bool
  | some s => s != ""
  | none => false

/-- The JS idiom a-or-b-or-fallback over two optional strings. -/
def firstTruthy (a b : Option String) (fallback : String) : String :=
  if strTruthy a then a.getD fallback
  else if strTruthy b then b.getD fallback
  else fallback

/-- A JS `Set` of strings kept in insertion order. -/
def insertSet (xs : List String) (x : String) : List String :=
  if x ∈ xs then xs else xs ++ [x]

/-- The JS `substring(0, n)` truncation, on the character list of the
string. -/
def strTake (s : String) (n : Nat) : String := String.mk (s.data.take n)

/-- The global single-character regex replacement of newlines by spaces. -/
def replaceNewlines (s : String) : String :=
  String.mk (s.data.map (fun ch => if ch = '\n' then ' ' else ch))

/-- The `metadata` object of a summary line. -/
structure Metadata where
  workingDirectory : Option String := none
  cwd : Option String := none
  thread_summary : Option String := none
  summary : Option String := none
  deriving DecidableEq, Repr

/-- The `tool_use` object of a tool-use line; `input` is kept as an opaque
serialized payload, the code only stores it. -/
structure ToolUseInfo where
  name : Option String := none
  id : Option String := none
  input : Option String := none
  deriving DecidableEq, Repr

/-- The nested `message` object of an assistant line. -/
structure MsgBody where
  model : Option String := none
  usage : Option Usage := none
  deriving DecidableEq, Repr

/-- One successfully JSON-parsed log line; every field optional, matching the
input record schema. Timestamps are epoch milliseconds. -/
structure Message where
  type : Option String := none
  timestamp : Option Int := none
  sessionId : Option String := none
  parentUUID : Option String := none
  summary : Option String := none
  metadata : Option Metadata := none
  text : Option String := none
  cwd : Option String := none
  user : Option String := none
  service_tier : Option String := none
  tool_use : Option ToolUseInfo := none
  tool_use_id : Option String := none
  is_error : Option Bool := none
  content : Option String := none
  message : Option MsgBody := none
  id : Option String := none
  UUID : Option String := none
  role : Option String := none
  requestID : Option String := none
  deriving DecidableEq, Repr

/-- One raw log line: either `JSON.parse` (or field access on the parsed
value) threw, or it yielded a message record. -/
inductive Line where
  | malformed : Line
  | ok : Message → Line
  deriving DecidableEq, Repr

/-- One stored tool execution (`toolUsage[name].executions` entries). -/
structure Execution where
  timestamp : Option Int
  id : Option String
  parentId : Option String
  input : Option String
  deriving DecidableEq, Repr

/-- Per-tool record inside a conversation. -/
structure ToolData where
  count : Nat
  totalCost : ℚ
  errors : Nat
  executions : List Execution
  deriving DecidableEq, Repr

/-- Per-model record inside a conversation. -/
structure ModelData where
  count : Nat
  cost : ℚ
  tokens : UsageTokens
  deriving DecidableEq, Repr

/-- One detected slash command. -/
structure CommandRec where
  command : String
  timestamp : Option Int
  fullText : String
  deriving DecidableEq, Repr

/-- One tool-result error record. -/
structure ErrorRec where
  timestamp : Option Int
  toolUseId : Option String
  content : Option String
  parentId : Option String
  deriving DecidableEq, Repr

/-- One batch-mode burn-rate sample (`conversation.tokenBurnRate` entries). -/
structure BurnSample where
  timestamp : Int
  rate : ℚ
  tokens : Nat
  cost : ℚ
  deriving DecidableEq, Repr

/-- The `toolResult` sub-record of a stored message. -/
structure ToolResultRec where
  toolUseId : Option String
  isError : Option Bool
  content : Option String
  deriving DecidableEq, Repr

/-- The record pushed onto `conversation.messages` for every parsed line. -/
structure StoredMessage where
  type : Option String
  timestamp : Option Int
  id : Option String
  parentId : Option String
  role : Option String
  model : Option String
  usage : Option Usage
  toolUse : Option ToolUseInfo
  toolResult : Option ToolResultRec
  text : Option String
  requestId : Option String
  deriving DecidableEq, Repr

/-- The conversation aggregate built by `parseJSONLFile`; JS objects used as
maps become insertion-ordered association lists, JS Sets become
insertion-ordered lists. `projectName` is attached later by the analyzer. -/
structure Conv where
  conversationId : String
  sessionId : String
  conversationName : String
  conversationTitle : String
  totalCost : ℚ
  totalTokens : UsageTokens
  messageCount : Nat
  startTime : Option Int
  endTime : Option Int
  duration : ℚ
  summary : String
  firstUserMessage : String
  messages : List StoredMessage
  toolUsage : List (String × ToolData)
  commands : List CommandRec
  errors : List ErrorRec
  models : List (String × ModelData)
  workingDirectories : List String
  userTypes : List String
  serviceTiers : List String
  tokenBurnRate : List BurnSample
  projectPath : String
  projectName : String
  deriving DecidableEq, Repr

/-- The JS map-update idiom: create the key with an initial record if absent,
then apply the mutation; insertion order preserved, new keys appended. -/
def updW {β : Type} (m : List (String × β)) (k : String) (f : β → β) (d : β) :
    List (String × β) :=
  match m with
  | [] => [(k, f d)]
  | (k', v) :: rest => if k' = k then (k', f v) :: rest else (k', v) :: updW rest k f d

/-- The loop state of `parseJSONLFile`: the conversation under construction
plus the `lastTimestamp` cursor of the burn-rate computation. -/
structure PState where
  conv : Conv
  lastTimestamp : Option Int
  deriving DecidableEq, Repr

/-- The line-loop block extracting the session id. -/
def updSessionId (m : Message) (c : Conv) : Conv :=
  if strTruthy m.sessionId ∧ c.sessionId = "" then
    { c with sessionId := m.sessionId.getD "" }
  else c

/-- The line-loop block for summary lines: running summary text, conversation
name, project path, and the two metadata title assignments, in source order
(a `metadata.summary` overwrites a `thread_summary` carried by the same line). -/
def updSummaryMeta (m : Message) (c : Conv) : Conv :=
  if m.type = some "summary" then
    let c1 := if strTruthy m.summary then { c with summary := m.summary.getD "" } else c
    match m.metadata with
    | some md =>
      let c2 := { c1 with
        conversationName := firstTruthy md.workingDirectory md.cwd "Unknown",
        projectPath := if strTruthy md.cwd then md.cwd.getD "" else "" }
      let c3 := if strTruthy md.thread_summary then
          { c2 with conversationTitle := md.thread_summary.getD "" }
        else c2
      if strTruthy md.summary then { c3 with conversationTitle := md.summary.getD "" } else c3
    | none => c1
  else c

/-- The line-loop block capturing the first user message (truncated to 100). -/
def updFirstUser (m : Message) (c : Conv) : Conv :=
  if m.type = some "user" ∧ c.firstUserMessage = "" ∧ strTruthy m.text then
    { c with firstUserMessage := strTake (m.text.getD "") 100 }
  else c

/-- The line-loop block tracking working directories. -/
def updCwd (m : Message) (c : Conv) : Conv :=
  if strTruthy m.cwd then
    { c with workingDirectories := insertSet c.workingDirectories (m.cwd.getD "") }
  else c

/-- The line-loop block tracking user types. -/
def updUser (m : Message) (c : Conv) : Conv :=
  if strTruthy m.user then { c with userTypes := insertSet c.userTypes (m.user.getD "") } else c

/-- The line-loop block tracking service tiers. -/
def updTier (m : Message) (c : Conv) : Conv :=
  if strTruthy m.service_tier then
    { c with serviceTiers := insertSet c.serviceTiers (m.service_tier.getD "") }
  else c

/-- The line-loop block recording a tool use (name falls back to the sentinel
"unknown") and its execution entry. -/
def updToolUse (m : Message) (c : Conv) : Conv :=
  if m.type = some "tool_use" then
    let rawName := m.tool_use.bind ToolUseInfo.name
    let toolName := if strTruthy rawName then rawName.getD "" else "unknown"
    let exec : Execution :=
      ⟨m.timestamp, m.tool_use.bind ToolUseInfo.id, m.parentUUID, m.tool_use.bind ToolUseInfo.input⟩
    { c with toolUsage := (updW c.toolUsage toolName
        (fun d => { d with count := d.count + 1, executions := d.executions ++ [exec] })
        ⟨0, 0, 0, []⟩) }
  else c

/-- The line-loop block recording a tool-result error. -/
def updToolResult (m : Message) (c : Conv) : Conv :=
  if m.type = some "tool_result" then
    if m.is_error.getD false then
      { c with errors := c.errors ++ [⟨m.timestamp, m.tool_use_id, m.content, m.parentUUID⟩] }
    else c
  else c

/-- A character of the regex class backslash-w: ASCII letters, digits, underscore. -/
def isWordChar (ch : Char) : Bool := ch.isAlphanum || ch = '_'

/-- The leading slash-command match of the user-text regex. -/
def matchCommand (s : String) : Option String :=
  match s.data with
  | '/' :: rest =>
    let w := rest.takeWhile isWordChar
    if w.isEmpty then none else some (String.mk w)
  | _ => none

/-- The line-loop block extracting slash commands from user text. -/
def updCommands (m : Message) (c : Conv) : Conv :=
  if m.type = some "user" ∧ strTruthy m.text then
    match matchCommand (m.text.getD "") with
    | some cmd => { c with commands := c.commands ++ [⟨cmd, m.timestamp, m.text.getD ""⟩] }
    | none => c
  else c

/-- Does an execution entry match the assistant line's parent id. -/
def execMatches (pid : String) (e : Execution) : Bool :=
  e.id == some pid || e.parentId == some pid

/-- Retroactive tool-cost attribution: the first tool (insertion order) owning
a matching execution gets the cost, then the scan stops. -/
def attributeCost (pid : String) (cost : ℚ) : List (String × ToolData) → List (String × ToolData)
  | [] => []
  | (n, d) :: rest =>
    if d.executions.any (execMatches pid) then
      (n, { d with totalCost := d.totalCost + cost }) :: rest
    else (n, d) :: attributeCost pid cost rest

/-- Field-by-field addition of the five token counters, as done inline by the
assistant branch for both conversation totals and per-model totals. -/
def addUT (a b : UsageTokens) : UsageTokens :=
  ⟨a.total + b.total, a.input + b.input, a.output + b.output,
    a.cacheWrite + b.cacheWrite, a.cacheRead + b.cacheRead⟩

/-- The per-model record mutation of the assistant branch. -/
def bumpModel (cost : ℚ) (tokens : UsageTokens) (d : ModelData) : ModelData :=
  { d with count := d.count + 1, cost := d.cost + cost, tokens := addUT d.tokens tokens }

/-- The burn-rate step of the assistant branch: with both the current
timestamp and the `lastTimestamp` cursor present and a strictly positive
delta (in minutes), append one sample; otherwise leave the list alone. -/
def burnStep (cost : ℚ) (tokens : UsageTokens) (ts last : Option Int) (c : Conv) : Conv :=
  match ts, last with
  | some t, some t0 =>
    let timeDiff : ℚ := ((t - t0 : Int) : ℚ) / 1000 / 60
    if 0 < timeDiff then
      { c with tokenBurnRate := c.tokenBurnRate ++
          [⟨t, (tokens.total : ℚ) / timeDiff, tokens.total, cost⟩] }
    else c
  | _, _ => c

/-- The line-loop block for cost-bearing assistant lines: cost, tokens,
message count, per-model record, tool attribution, burn-rate sample, and the
`lastTimestamp` cursor update. -/
def updAssistant (tbl : PricingTable) (m : Message) (st : PState) : PState :=
  match m.message with
  | none => st
  | some body =>
    if m.type = some "assistant" then
      if body.usage.isSome ∧ strTruthy body.model then
        let model := body.model.getD ""
        let cost := calculateCost tbl body.usage model
        let tokens := calculateTokens body.usage
        let c := st.conv
        let c := { c with
          totalCost := c.totalCost + cost,
          totalTokens := addUT c.totalTokens tokens,
          messageCount := c.messageCount + 1,
          models := updW c.models model (bumpModel cost tokens) ⟨0, 0, ⟨0, 0, 0, 0, 0⟩⟩ }
        let c := if strTruthy m.parentUUID then
            { c with toolUsage := attributeCost (m.parentUUID.getD "") cost c.toolUsage }
          else c
        let c := burnStep cost tokens m.timestamp st.lastTimestamp c
        ⟨c, m.timestamp⟩
      else st
    else st

/-- The record pushed onto `conversation.messages`. -/
def mkStored (m : Message) : StoredMessage :=
  { type := m.type, timestamp := m.timestamp,
    id := if strTruthy m.id then m.id else m.UUID,
    parentId := m.parentUUID, role := m.role,
    model := m.message.bind MsgBody.model, usage := m.message.bind MsgBody.usage,
    toolUse := m.tool_use,
    toolResult := if m.type = some "tool_result" then
        some ⟨m.tool_use_id, m.is_error, m.content⟩
      else none,
    text := m.text, requestId := m.requestID }

/-- The line-loop block tracking the conversation time range (min/max, robust
to out-of-order timestamps). -/
def updTimes (m : Message) (c : Conv) : Conv :=
  match m.timestamp with
  | none => c
  | some t =>
    let c := match c.startTime with
      | none => { c with startTime := some t }
      | some s => if t < s then { c with startTime := some t } else c
    match c.endTime with
    | none => { c with endTime := some t }
    | some e => if e < t then { c with endTime := some t } else c

/-- The whole try-block body of the line loop, stages in source order. -/
def processMsg (tbl : PricingTable) (m : Message) (st : PState) : PState :=
  let c := updSessionId m st.conv
  let c := updSummaryMeta m c
  let c := updFirstUser m c
  let c := updCwd m c
  let c := updUser m c
  let c := updTier m c
  let c := updToolUse m c
  let c := updToolResult m c
  let c := updCommands m c
  let st1 := updAssistant tbl m ⟨c, st.lastTimestamp⟩
  let c2 := { st1.conv with messages := st1.conv.messages ++ [mkStored m] }
  ⟨updTimes m c2, st1.lastTimestamp⟩

/-- One iteration of the line loop: a malformed line hits the empty catch
block and changes nothing. -/
def processLine (tbl : PricingTable) (st : PState) (l : Line) : PState :=
  match l with
  | .malformed => st
  | .ok m => processMsg tbl m st

/-- The fresh conversation object of `parseJSONLFile`. -/
def initConv : Conv :=
  { conversationId := "", sessionId := "", conversationName := "",
    conversationTitle := "", totalCost := 0, totalTokens := ⟨0, 0, 0, 0, 0⟩,
    messageCount := 0, startTime := none, endTime := none, duration := 0,
    summary := "", firstUserMessage := "", messages := [], toolUsage := [],
    commands := [], errors := [], models := [], workingDirectories := [],
    userTypes := [], serviceTiers := [], tokenBurnRate := [],
    projectPath := "", projectName := "" }

/-- The line loop of `parseJSONLFile` over a whole file. -/
def parseLines (tbl : PricingTable) (lines : List Line) : PState :=
  lines.foldl (processLine tbl) ⟨initConv, none⟩

/-- Title post-processing: newlines flattened to spaces, truncated to 100. -/
def normalizeTitle (s : String) : String := strTake (replaceNewlines s) 100

/-- The epilogue of `parseJSONLFile`: duration, conversation id, best title. -/
def finalizeConv (convId : String) (st : PState) : Conv :=
  let c := st.conv
  let c := match c.startTime, c.endTime with
    | some s, some e => { c with duration := ((e - s : Int) : ℚ) / 1000 / 60 }
    | _, _ => c
  let c := { c with conversationId := convId }
  let c := if c.conversationTitle = "" then
      { c with conversationTitle :=
          if c.summary ≠ "" then c.summary
          else if c.firstUserMessage ≠ "" then c.firstUserMessage
          else "Untitled conversation" }
    else c
  { c with conversationTitle := normalizeTitle c.conversationTitle }

/-- `ConversationParser.parseJSONLFile` on the decoded line sequence of one
file whose basename (without extension) is `convId`. -/
def parseJSONLFile (tbl : PricingTable) (convId : String) (lines : List Line) : Conv :=
  finalizeConv convId (parseLines tbl lines)

/-- One live-mode activity update built by `parseRecentUpdates`
(monitor.js lines 223-279). An absent `timestamp` field defaults to the
current clock (`Date.now()`), passed in as `now`. -/
structure Update where
  sessionId : String
  timestamp : Int
  type : Option String := none
  cost : Option ℚ := none
  tokens : Option Nat := none
  model : Option String := none
  usage : Option Usage := none
  tool : Option String := none
  text : Option String := none
  deriving DecidableEq, Repr

/-- The hard-coded fallback pricing row of `parseRecentUpdates`
(3.0 / 15.0 / 3.75 / 0.3). -/
def monFallback : Pricing := ⟨3, 15, 15/4, 3/10⟩

/-- The monitor's row choice: custom row for the model, else the custom
`default` row, else the hard-coded fallback. -/
def monPricing (pricing : List (String × Pricing)) (model : String) : Pricing :=
  ((List.lookup model pricing).orElse (fun _ => List.lookup "default" pricing)).getD monFallback

/-- The per-line update record of `parseRecentUpdates`. -/
def mkUpdate (pricing : List (String × Pricing)) (now : Int) (sid : String) (m : Message) :
    Update :=
  let u0 : Update := { sessionId := sid, timestamp := m.timestamp.getD now, type := m.type }
  let u1 := match m.message with
    | some body =>
      if m.type = some "assistant" ∧ body.usage.isSome ∧ strTruthy body.model then
        match body.usage with
        | some u =>
          let mp := monPricing pricing (body.model.getD "")
          let inputCost := ((u.input_tokens.getD 0 : ℚ) * mp.input) / 1000000
          let outputCost := ((u.output_tokens.getD 0 : ℚ) * mp.output) / 1000000
          let cacheWriteCost := ((u.cache_creation_input_tokens.getD 0 : ℚ) * mp.cache_write) / 1000000
          let cacheReadCost := ((u.cache_read_input_tokens.getD 0 : ℚ) * mp.cache_read) / 1000000
          { u0 with
            cost := some (inputCost + outputCost + cacheWriteCost + cacheReadCost),
            tokens := some (u.input_tokens.getD 0 + u.output_tokens.getD 0 +
              u.cache_creation_input_tokens.getD 0 + u.cache_read_input_tokens.getD 0),
            model := body.model, usage := body.usage }
        | none => u0
      else u0
    | none => u0
  let u2 := if m.type = some "tool_use" then
      { u1 with tool := m.tool_use.bind ToolUseInfo.name }
    else u1
  if m.type = some "user" ∧ strTruthy m.text then
    { u2 with text := some (strTake (m.text.getD "") 100) }
  else u2

/-- `ConversationMonitor.parseRecentUpdates`: one update per parseable line,
malformed lines silently skipped by the empty catch block. -/
def parseRecentUpdates (pricing : List (String × Pricing)) (now : Int) (lines : List Line)
    (sid : String) : List Update :=
  lines.foldl
    (fun updates l =>
      match l with
      | Line.malformed => updates
      | Line.ok m => updates ++ [mkUpdate pricing now sid m])
    []

/-- One live-mode burn-rate sample (`session.tokenBurnRate` entries in
monitor.js; no cost field there). -/
structure MonBurnSample where
  timestamp : Int
  rate : ℚ
  tokens : Nat
  deriving DecidableEq, Repr

/-- The mutable per-session accumulator of `ConversationMonitor`. -/
structure Session where
  sessionId : String
  startTime : Int
  lastUpdate : Int
  totalCost : ℚ
  totalTokens : Nat
  messages : Nat
  tokenBurnRate : List MonBurnSample
  recentActivity : List Update
  deriving DecidableEq, Repr

/-- The fresh session record created on first update for a session id. -/
def freshSession (sid : String) (now : Int) : Session :=
  { sessionId := sid, startTime := now, lastUpdate := now, totalCost := 0,
    totalTokens := 0, messages := 0, tokenBurnRate := [], recentActivity := [] }

/-- JS truthiness of `update.tokens`: present and non-zero. -/
def updTokensTruthy (u : Update) : Bool :=
  match u.tokens with
  | some t => t != 0
  | none => false

/-- The cost accumulation step of the forEach body (`if (update.cost)`). -/
def updCost (u : Update) (s : Session) : Session :=
  match u.cost with
  | some c => if c ≠ 0 then { s with totalCost := s.totalCost + c } else s
  | none => s

/-- The token accumulation step of the forEach body (`if (update.tokens)`). -/
def updTok (u : Update) (s : Session) : Session :=
  match u.tokens with
  | some t => if t ≠ 0 then { s with totalTokens := s.totalTokens + t } else s
  | none => s

/-- The message counting step of the forEach body. -/
def updMsgCount (u : Update) (s : Session) : Session :=
  if u.type = some "assistant" then { s with messages := s.messages + 1 } else s

/-- The burn-rate step of the forEach body: only with a previous activity
entry, a strictly positive minute delta, and a truthy token count is a
sample appended. -/
def updBurn (u : Update) (s : Session) : Session :=
  match s.recentActivity.getLast? with
  | some lastAct =>
    let timeDiff : ℚ := ((u.timestamp - lastAct.timestamp : Int) : ℚ) / 1000 / 60
    if 0 < timeDiff ∧ updTokensTruthy u then
      { s with tokenBurnRate := s.tokenBurnRate ++
          [(⟨u.timestamp, (u.tokens.getD 0 : ℚ) / timeDiff, u.tokens.getD 0⟩ : MonBurnSample)] }
    else s
  | none => s

/-- The per-update body of the `updates.forEach` loop in
`ConversationMonitor.processFileUpdate` (monitor.js lines 146-173), steps in
source order. -/
def applyUpdate (s : Session) (u : Update) : Session :=
  let s := updCost u s
  let s := updTok u s
  let s := updMsgCount u s
  let s := updBurn u s
  { s with recentActivity := s.recentActivity ++ [u], lastUpdate := u.timestamp }

/-- The post-loop truncation: keep only the last 100 recent-activity items. -/
def trimActivity (s : Session) : Session :=
  if s.recentActivity.length > 100 then
    { s with recentActivity := s.recentActivity.drop (s.recentActivity.length - 100) }
  else s

/-- One `processFileUpdate` batch applied to a session: the forEach loop then
the truncation. -/
def processUpdates (s : Session) (updates : List Update) : Session :=
  trimActivity (updates.foldl applyUpdate s)

/-- Sum of the `rate` fields (the `reduce` in monitor.js). -/
def rateSum (l : List MonBurnSample) : ℚ := l.foldl (fun a r => a + r.rate) 0

/-- The snapshot record returned by `ConversationMonitor.getSessionStats`. -/
structure SessionStats where
  sessionId : String
  startTime : Int
  lastUpdate : Int
  duration : ℚ
  totalCost : ℚ
  totalTokens : Nat
  messages : Nat
  avgBurnRate : ℚ
  costPerMinute : ℚ
  tokensPerMinute : ℚ
  recentActivity : List Update
  burnRateHistory : List MonBurnSample
  deriving DecidableEq, Repr

/-- `ConversationMonitor.getSessionStats` on a present session. -/
def getSessionStats (s : Session) : SessionStats :=
  let duration : ℚ := ((s.lastUpdate - s.startTime : Int) : ℚ) / 1000 / 60
  let avgBurnRate : ℚ :=
    if s.tokenBurnRate.length > 0 then rateSum s.tokenBurnRate / (s.tokenBurnRate.length : ℚ)
    else 0
  { sessionId := s.sessionId, startTime := s.startTime, lastUpdate := s.lastUpdate,
    duration := duration, totalCost := s.totalCost, totalTokens := s.totalTokens,
    messages := s.messages, avgBurnRate := avgBurnRate,
    costPerMinute := if 0 < duration then s.totalCost / duration else 0,
    tokensPerMinute := if 0 < duration then (s.totalTokens : ℚ) / duration else 0,
    recentActivity := s.recentActivity.drop (s.recentActivity.length - 10),
    burnRateHistory := s.tokenBurnRate.drop (s.tokenBurnRate.length - 20) }

/-- The alert-threshold block of the configuration. -/
structure AlertThresholds where
  enabled : Bool
  dailyCostThreshold : ℚ
  sessionCostThreshold : ℚ
  tokenBurnRateThreshold : ℚ
  deriving DecidableEq, Repr

/-- Alert type tags. -/
inductive AlertType where
  | session_cost
  | token_burn_rate
  | daily_cost
  deriving DecidableEq, Repr

/-- Alert severities. -/
inductive Severity where
  | warning
  | critical
  deriving DecidableEq, Repr

/-- One alert record (the display message string is omitted). -/
structure Alert where
  type : AlertType
  severity : Severity
  sessionId : String
  deriving DecidableEq, Repr

/-- `ConversationMonitor.checkSessionAlerts` (monitor.js lines 281-317):
session-cost check, then the burn-rate check over the mean of the last five
samples. -/
def checkSessionAlerts (th : AlertThresholds) (s : Session) : List Alert :=
  if !th.enabled then []
  else
    let alerts : List Alert := []
    let alerts := if th.sessionCostThreshold < s.totalCost then
        alerts ++ [⟨AlertType.session_cost, Severity.warning, s.sessionId⟩]
      else alerts
    if s.tokenBurnRate.length > 0 then
      let recentBurnRates := s.tokenBurnRate.drop (s.tokenBurnRate.length - 5)
      let avgBurnRate := rateSum recentBurnRates / (recentBurnRates.length : ℚ)
      if th.tokenBurnRateThreshold < avgBurnRate then
        alerts ++ [⟨AlertType.token_burn_rate, Severity.critical, s.sessionId⟩]
      else alerts
    else alerts

/- Projection lemmas for the live-session update steps. -/

theorem updCost_activity (u : Update) (s : Session) :
    (updCost u s).recentActivity = s.recentActivity := by
  unfold updCost; (repeat' split) <;> rfl

theorem updCost_burn (u : Update) (s : Session) :
    (updCost u s).tokenBurnRate = s.tokenBurnRate := by
  unfold updCost; (repeat' split) <;> rfl

theorem updTok_activity (u : Update) (s : Session) :
    (updTok u s).recentActivity = s.recentActivity := by
  unfold updTok; (repeat' split) <;> rfl

theorem updTok_burn (u : Update) (s : Session) :
    (updTok u s).tokenBurnRate = s.tokenBurnRate := by
  unfold updTok; (repeat' split) <;> rfl

theorem updMsgCount_activity (u : Update) (s : Session) :
    (updMsgCount u s).recentActivity = s.recentActivity := by
  unfold updMsgCount; (repeat' split) <;> rfl

theorem updMsgCount_burn (u : Update) (s : Session) :
    (updMsgCount u s).tokenBurnRate = s.tokenBurnRate := by
  unfold updMsgCount; (repeat' split) <;> rfl

theorem updBurn_activity (u : Update) (s : Session) :
    (updBurn u s).recentActivity = s.recentActivity := by
  unfold updBurn
  split
  · dsimp only
    split <;> rfl
  · rfl

/-- After one forEach-body application the activity list has the update
appended. -/
theorem applyUpdate_activity (s : Session) (u : Update) :
    (applyUpdate s u).recentActivity = s.recentActivity ++ [u] := by
  show (updBurn u (updMsgCount u (updTok u (updCost u s)))).recentActivity ++ [u] = _
  rw [updBurn_activity, updMsgCount_activity, updTok_activity, updCost_activity]

/-- Burn-rate effect of one forEach-body application, fully characterized:
a sample is appended exactly when a previous activity entry exists, the
minute delta is strictly positive, and the update carries a non-zero token
count. -/
theorem applyUpdate_burn (s : Session) (u : Update) :
    (applyUpdate s u).tokenBurnRate =
      s.tokenBurnRate ++
        (match s.recentActivity.getLast? with
         | some lastAct =>
           if 0 < ((u.timestamp - lastAct.timestamp : Int) : ℚ) / 1000 / 60 ∧ updTokensTruthy u
           then [(⟨u.timestamp, (u.tokens.getD 0 : ℚ) /
               (((u.timestamp - lastAct.timestamp : Int) : ℚ) / 1000 / 60),
               u.tokens.getD 0⟩ : MonBurnSample)]
           else []
         | none => []) := by
  have ha : (updMsgCount u (updTok u (updCost u s))).recentActivity = s.recentActivity := by
    rw [updMsgCount_activity, updTok_activity, updCost_activity]
  have hb : (updMsgCount u (updTok u (updCost u s))).tokenBurnRate = s.tokenBurnRate := by
    rw [updMsgCount_burn, updTok_burn, updCost_burn]
  show (updBurn u (updMsgCount u (updTok u (updCost u s)))).tokenBurnRate = _
  unfold updBurn
  rw [ha]
  cases s.recentActivity.getLast? with
  | none => simp [hb]
  | some lastAct =>
    dsimp only
    by_cases hc : 0 < ((u.timestamp - lastAct.timestamp : Int) : ℚ) / 1000 / 60 ∧
        updTokensTruthy u
    · rw [if_pos hc, if_pos hc]
      simp [hb]
    · rw [if_neg hc, if_neg hc]
      simp [hb]

/-- Dropping strictly fewer elements than the length keeps the last element. -/
theorem getLast_drop_of_lt {α : Type} (l : List α) (n : Nat) (h : n < l.length) :
    (l.drop n).getLast? = l.getLast? := by
  conv_rhs => rw [← List.take_append_drop n l]
  rw [List.getLast?_append]
  have hne : l.drop n ≠ [] := by
    intro hnil
    have hlen := List.length_drop n l
    rw [hnil] at hlen
    simp at hlen
    omega
  obtain ⟨a, hval⟩ := Option.isSome_iff_exists.mp (List.getLast?_isSome.mpr hne)
  rw [hval]
  rfl

/-- The truncation step does not touch the burn-rate history. -/
theorem trimActivity_burn (s : Session) :
    (trimActivity s).tokenBurnRate = s.tokenBurnRate := by
  unfold trimActivity; split <;> rfl

/-- The truncation step keeps the most recent activity entry. -/
theorem trimActivity_getLast (s : Session) :
    (trimActivity s).recentActivity.getLast? = s.recentActivity.getLast? := by
  unfold trimActivity
  split
  · next h => exact getLast_drop_of_lt _ _ (by omega)
  · rfl

/-- The default-only pricing table (input 3.0, output 15.0, cache write 3.75,
cache read 0.3 per million). -/
def tblDefault : PricingTable := ⟨[], ⟨3, 15, 15/4, 3/10⟩⟩

/-- C3 counterexample: feeding one malformed line through either line loop
leaves the whole state exactly as if the line had never existed — the catch
blocks are empty, no component of either state acts as a parse-error
counter, so no counter is incremented by 1 as claimed. -/
theorem c3_counterexample_no_counter :
    parseLines tblDefault [Line.malformed] = parseLines tblDefault [] ∧
    parseRecentUpdates [] 0 [Line.malformed] "sess" = parseRecentUpdates [] 0 [] "sess" :=
  ⟨rfl, rfl⟩

/-- C3 amended: a line that is not valid JSON produces zero Events and is
silently discarded (the code maintains no parse-error counter; the loop state
is unchanged in every component), and the processing of all other lines of
the same file is unaffected: both loops behave as on the line sequence with
the malformed line removed, wherever it occurs. -/
theorem c3_malformed_line_skipped (tbl : PricingTable) (pre post : List Line)
    (pricing : List (String × Pricing)) (now : Int) (sid : String) :
    parseLines tbl (pre ++ Line.malformed :: post) = parseLines tbl (pre ++ post) ∧
    parseRecentUpdates pricing now (pre ++ Line.malformed :: post) sid =
      parseRecentUpdates pricing now (pre ++ post) sid := by
  constructor
  · unfold parseLines
    rw [List.foldl_append, List.foldl_append]
    rfl
  · unfold parseRecentUpdates
    rw [List.foldl_append, List.foldl_append]
    rfl

/-- One cost-bearing assistant update per minute, for a long-lived session. -/
def c9upd (k : Nat) : Update :=
  { sessionId := "sess", timestamp := (k : Int) * 60000, type := some "assistant",
    cost := some 1, tokens := some 100 }

/-- The live session after k+1 single-update `processFileUpdate` batches. -/
def c9run : Nat → Session
  | 0 => processUpdates (freshSession "sess" 0) [c9upd 0]
  | Nat.succ k => processUpdates (c9run k) [c9upd (k + 1)]

/-- Along `c9run` the stored burn-rate history grows by one sample per batch
while the most recent activity entry is the latest update. -/
theorem c9run_facts (k : Nat) :
    (c9run k).tokenBurnRate.length = k ∧
    (c9run k).recentActivity.getLast? = some (c9upd k) := by
  induction k with
  | zero => constructor <;> rfl
  | succ k ih =>
    obtain ⟨ih1, ih2⟩ := ih
    have hstep : c9run (k + 1) = trimActivity (applyUpdate (c9run k) (c9upd (k + 1))) := rfl
    have hdelta : ((c9upd (k + 1)).timestamp - (c9upd k).timestamp : Int) = 60000 := by
      simp only [c9upd]
      push_cast
      ring
    constructor
    · rw [hstep, trimActivity_burn, applyUpdate_burn, ih2]
      dsimp only
      have hcond : 0 < (((c9upd (k + 1)).timestamp - (c9upd k).timestamp : Int) : ℚ) / 1000 / 60 ∧
          updTokensTruthy (c9upd (k + 1)) := by
        constructor
        · rw [hdelta]
          norm_num
        · simp [updTokensTruthy, c9upd]
      rw [if_pos hcond]
      simp [ih1]
    · rw [hstep, trimActivity_getLast, applyUpdate_activity]
      simp

/-- C9 counterexample: the stored burn-rate history of a live session is not
a bounded ring of last-N samples — along `c9run` (one minute-spaced
cost-bearing update per batch) it exceeds every fixed bound N. -/
theorem c9_counterexample_burn_unbounded :
    ¬ ∃ N : Nat, ∀ k : Nat, (c9run k).tokenBurnRate.length ≤ N := by
  rintro ⟨N, h⟩
  have h1 := h (N + 1)
  have h2 := (c9run_facts (N + 1)).1
  omega

/-- C9 amended: after every processed update batch the session's
recent-activity list is truncated to the most recent 100 entries, so it never
exceeds 100; the stored burn-rate history is unbounded (see the
counterexample) and only the `getSessionStats` snapshot is bounded — last 20
burn-rate samples and last 10 activity entries. -/
theorem c9_amended_bounds (s : Session) (updates : List Update) :
    (processUpdates s updates).recentActivity.length ≤ 100 ∧
    (getSessionStats (processUpdates s updates)).burnRateHistory.length ≤ 20 ∧
    (getSessionStats (processUpdates s updates)).recentActivity.length ≤ 10 := by
  refine ⟨?_, ?_, ?_⟩
  · unfold processUpdates trimActivity
    split
    · next h => simp only [List.length_drop]; omega
    · next h => omega
  · unfold getSessionStats
    simp only [List.length_drop]
    omega
  · unfold getSessionStats
    simp only [List.length_drop]
    omega

/-- A live activity entry with no token payload (a user event). -/
def c5u0 : Update := { sessionId := "sess", timestamp := 0, type := some "user" }

/-- A second token-free activity entry one minute later. -/
def c5u1 : Update := { sessionId := "sess", timestamp := 60000, type := some "user" }

/-- A session whose only recent activity is `c5u0`. -/
def c5s0 : Session :=
  { sessionId := "sess", startTime := 0, lastUpdate := 0, totalCost := 0, totalTokens := 0,
    messages := 0, tokenBurnRate := [], recentActivity := [c5u0] }

/-- C5 counterexample: in live tracking, two consecutive activity entries one
minute apart (strictly positive delta) produce NO burn-rate sample, because
the newer entry carries no token count — the claimed "a sample is appended if
and only if the time delta is strictly positive" fails for live tracking. -/
theorem c5_counterexample_positive_delta_no_sample :
    c5s0.recentActivity.getLast? = some c5u0 ∧
    0 < ((c5u1.timestamp - c5u0.timestamp : Int) : ℚ) / 1000 / 60 ∧
    (applyUpdate c5s0 c5u1).tokenBurnRate = [] := by
  refine ⟨rfl, by norm_num [c5u1, c5u0], ?_⟩
  rw [applyUpdate_burn]
  simp [c5s0, c5u0, c5u1, updTokensTruthy]

/-- The message of a line, if any. -/
def lineMsg : Line → Option Message
  | Line.malformed => none
  | Line.ok m => some m

/-- The metadata-title assignment effect of one line: inside one summary line
the `metadata.summary` assignment overwrites the `thread_summary` one. -/
def msgMetaTitle (m : Message) : Option String :=
  if m.type = some "summary" then
    match m.metadata with
    | some md =>
      if strTruthy md.summary then some (md.summary.getD "")
      else if strTruthy md.thread_summary then some (md.thread_summary.getD "")
      else none
    | none => none
  else none

/-- The running-summary assignment effect of one line. -/
def msgSummaryText (m : Message) : Option String :=
  if m.type = some "summary" ∧ strTruthy m.summary then some (m.summary.getD "") else none

/-- The first-user-message candidate of one line (truncated to 100). -/
def msgUserText (m : Message) : Option String :=
  if m.type = some "user" ∧ strTruthy m.text then some (strTake (m.text.getD "") 100) else none

/-- The amended title policy as a standalone function of the line sequence:
the last metadata title assignment wins (within one summary line the summary
field beats the thread-summary field); with none, fall back to the last
running summary text, then the first user message (truncated at capture),
then the literal string; finally newlines become spaces and the result is
truncated to 100 characters. -/
def titleSpec (lines : List Line) : String :=
  let msgs := lines.filterMap lineMsg
  let chosen := match (msgs.filterMap msgMetaTitle).getLast? with
    | some t => t
    | none =>
      match (msgs.filterMap msgSummaryText).getLast? with
      | some s => s
      | none =>
        match (msgs.filterMap msgUserText).head? with
        | some f => f
        | none => "Untitled conversation"
  normalizeTitle chosen

/- Projection lemmas: which conversation fields each parser stage leaves
untouched, plus the effect of the owning stage. -/

theorem updSessionId_title (m : Message) (c : Conv) :
    (updSessionId m c).conversationTitle = c.conversationTitle := by
  unfold updSessionId; split <;> rfl

theorem updSessionId_summary (m : Message) (c : Conv) :
    (updSessionId m c).summary = c.summary := by
  unfold updSessionId; split <;> rfl

theorem updSessionId_firstUser (m : Message) (c : Conv) :
    (updSessionId m c).firstUserMessage = c.firstUserMessage := by
  unfold updSessionId; split <;> rfl

theorem updSessionId_burn (m : Message) (c : Conv) :
    (updSessionId m c).tokenBurnRate = c.tokenBurnRate := by
  unfold updSessionId; split <;> rfl


theorem updSummaryMeta_fields (m : Message) (c : Conv) :
    (updSummaryMeta m c).conversationTitle = (msgMetaTitle m).getD c.conversationTitle ∧
    (updSummaryMeta m c).summary = (msgSummaryText m).getD c.summary ∧
    (updSummaryMeta m c).firstUserMessage = c.firstUserMessage ∧
    (updSummaryMeta m c).tokenBurnRate = c.tokenBurnRate := by
  unfold updSummaryMeta msgMetaTitle msgSummaryText
  by_cases ht : m.type = some "summary"
  · cases hmd : m.metadata with
    | none =>
      by_cases hs : strTruthy m.summary = true <;> simp [ht, hs]
    | some md =>
      by_cases hs : strTruthy m.summary = true <;>
      by_cases h1 : strTruthy md.summary = true <;>
      by_cases h2 : strTruthy md.thread_summary = true <;>
        simp [ht, hs, h1, h2]
  · simp [ht]

theorem updFirstUser_fields (m : Message) (c : Conv) :
    (updFirstUser m c).conversationTitle = c.conversationTitle ∧
    (updFirstUser m c).summary = c.summary ∧
    (updFirstUser m c).firstUserMessage =
      (if c.firstUserMessage = "" then (msgUserText m).getD c.firstUserMessage
       else c.firstUserMessage) ∧
    (updFirstUser m c).tokenBurnRate = c.tokenBurnRate := by
  unfold updFirstUser msgUserText
  by_cases ht : m.type = some "user" <;>
  by_cases he : c.firstUserMessage = "" <;>
  by_cases htx : strTruthy m.text = true <;>
    simp [ht, he, htx]

theorem updCwd_fields (m : Message) (c : Conv) :
    (updCwd m c).conversationTitle = c.conversationTitle ∧
    (updCwd m c).summary = c.summary ∧
    (updCwd m c).firstUserMessage = c.firstUserMessage ∧
    (updCwd m c).tokenBurnRate = c.tokenBurnRate := by
  unfold updCwd
  by_cases h : strTruthy m.cwd = true <;> simp [h]

theorem updUser_fields (m : Message) (c : Conv) :
    (updUser m c).conversationTitle = c.conversationTitle ∧
    (updUser m c).summary = c.summary ∧
    (updUser m c).firstUserMessage = c.firstUserMessage ∧
    (updUser m c).tokenBurnRate = c.tokenBurnRate := by
  unfold updUser
  by_cases h : strTruthy m.user = true <;> simp [h]

theorem updTier_fields (m : Message) (c : Conv) :
    (updTier m c).conversationTitle = c.conversationTitle ∧
    (updTier m c).summary = c.summary ∧
    (updTier m c).firstUserMessage = c.firstUserMessage ∧
    (updTier m c).tokenBurnRate = c.tokenBurnRate := by
  unfold updTier
  by_cases h : strTruthy m.service_tier = true <;> simp [h]

theorem updToolUse_fields (m : Message) (c : Conv) :
    (updToolUse m c).conversationTitle = c.conversationTitle ∧
    (updToolUse m c).summary = c.summary ∧
    (updToolUse m c).firstUserMessage = c.firstUserMessage ∧
    (updToolUse m c).tokenBurnRate = c.tokenBurnRate := by
  unfold updToolUse
  by_cases h : m.type = some "tool_use" <;> simp [h]

theorem updToolResult_fields (m : Message) (c : Conv) :
    (updToolResult m c).conversationTitle = c.conversationTitle ∧
    (updToolResult m c).summary = c.summary ∧
    (updToolResult m c).firstUserMessage = c.firstUserMessage ∧
    (updToolResult m c).tokenBurnRate = c.tokenBurnRate := by
  unfold updToolResult
  by_cases h1 : m.type = some "tool_result" <;>
  by_cases h2 : m.is_error.getD false = true <;>
    simp [h1, h2]

theorem updCommands_fields (m : Message) (c : Conv) :
    (updCommands m c).conversationTitle = c.conversationTitle ∧
    (updCommands m c).summary = c.summary ∧
    (updCommands m c).firstUserMessage = c.firstUserMessage ∧
    (updCommands m c).tokenBurnRate = c.tokenBurnRate := by
  unfold updCommands
  by_cases h : (m.type = some "user" ∧ strTruthy m.text = true)
  · cases matchCommand (m.text.getD "") <;> simp [h]
  · simp [h]

theorem updTimes_fields (m : Message) (c : Conv) :
    (updTimes m c).conversationTitle = c.conversationTitle ∧
    (updTimes m c).summary = c.summary ∧
    (updTimes m c).firstUserMessage = c.firstUserMessage ∧
    (updTimes m c).tokenBurnRate = c.tokenBurnRate := by
  unfold updTimes
  cases m.timestamp with
  | none => simp
  | some t =>
    cases hst : c.startTime <;> cases het : c.endTime <;>
      refine ⟨?_, ?_, ?_, ?_⟩ <;>
        (repeat' first | split | dsimp only) <;> rfl

theorem burnStep_title (cost : ℚ) (tokens : UsageTokens) (ts last : Option Int) (c : Conv) :
    (burnStep cost tokens ts last c).conversationTitle = c.conversationTitle := by
  unfold burnStep
  (repeat' first | split | dsimp only) <;> rfl

theorem burnStep_summary (cost : ℚ) (tokens : UsageTokens) (ts last : Option Int) (c : Conv) :
    (burnStep cost tokens ts last c).summary = c.summary := by
  unfold burnStep
  (repeat' first | split | dsimp only) <;> rfl

theorem burnStep_firstUser (cost : ℚ) (tokens : UsageTokens) (ts last : Option Int) (c : Conv) :
    (burnStep cost tokens ts last c).firstUserMessage = c.firstUserMessage := by
  unfold burnStep
  (repeat' first | split | dsimp only) <;> rfl

theorem updAssistant_fields (tbl : PricingTable) (m : Message) (st : PState) :
    (updAssistant tbl m st).conv.conversationTitle = st.conv.conversationTitle ∧
    (updAssistant tbl m st).conv.summary = st.conv.summary ∧
    (updAssistant tbl m st).conv.firstUserMessage = st.conv.firstUserMessage := by
  unfold updAssistant
  cases m.message with
  | none => exact ⟨rfl, rfl, rfl⟩
  | some body =>
    dsimp only
    by_cases ht : m.type = some "assistant"
    · by_cases hc : (body.usage.isSome = true ∧ strTruthy body.model = true)
      · rw [if_pos ht, if_pos hc]
        dsimp only
        refine ⟨?_, ?_, ?_⟩ <;>
          simp only [burnStep_title, burnStep_summary, burnStep_firstUser] <;>
          split <;> rfl
      · rw [if_pos ht, if_neg hc]
        exact ⟨rfl, rfl, rfl⟩
    · rw [if_neg ht]
      exact ⟨rfl, rfl, rfl⟩

theorem burnStep_burn (cost : ℚ) (tokens : UsageTokens) (ts last : Option Int) (c : Conv) :
    (burnStep cost tokens ts last c).tokenBurnRate =
      c.tokenBurnRate ++
        (match ts, last with
         | some t, some t0 =>
           if 0 < ((t - t0 : Int) : ℚ) / 1000 / 60 then
             [(⟨t, (tokens.total : ℚ) / (((t - t0 : Int) : ℚ) / 1000 / 60),
               tokens.total, cost⟩ : BurnSample)]
           else []
         | _, _ => []) := by
  unfold burnStep
  rcases ts with _ | t <;> rcases last with _ | t0 <;> dsimp only <;> try simp
  split <;> simp

theorem updAssistant_burn_char (tbl : PricingTable) (m : Message) (body : MsgBody)
    (st : PState) (hm : m.message = some body) (ht : m.type = some "assistant")
    (hc : body.usage.isSome = true ∧ strTruthy body.model = true) :
    (updAssistant tbl m st).conv.tokenBurnRate =
      st.conv.tokenBurnRate ++
        (match m.timestamp, st.lastTimestamp with
         | some t, some t0 =>
           if 0 < ((t - t0 : Int) : ℚ) / 1000 / 60 then
             [(⟨t, ((calculateTokens body.usage).total : ℚ) / (((t - t0 : Int) : ℚ) / 1000 / 60),
               (calculateTokens body.usage).total,
               calculateCost tbl body.usage (body.model.getD "")⟩ : BurnSample)]
           else []
         | _, _ => []) ∧
    (updAssistant tbl m st).lastTimestamp = m.timestamp := by
  unfold updAssistant
  rw [hm]
  dsimp only
  rw [if_pos ht, if_pos hc]
  dsimp only
  constructor
  · rw [burnStep_burn]
    congr 1
    split <;> rfl
  · rfl

theorem processMsg_title (tbl : PricingTable) (m : Message) (st : PState) :
    (processMsg tbl m st).conv.conversationTitle =
      (msgMetaTitle m).getD st.conv.conversationTitle := by
  unfold processMsg
  dsimp only
  rw [(updTimes_fields m _).1]
  rw [(updAssistant_fields tbl m _).1]
  dsimp only
  rw [(updCommands_fields m _).1, (updToolResult_fields m _).1, (updToolUse_fields m _).1,
    (updTier_fields m _).1, (updUser_fields m _).1, (updCwd_fields m _).1,
    (updFirstUser_fields m _).1, (updSummaryMeta_fields m _).1, updSessionId_title]

theorem processMsg_summary (tbl : PricingTable) (m : Message) (st : PState) :
    (processMsg tbl m st).conv.summary = (msgSummaryText m).getD st.conv.summary := by
  unfold processMsg
  dsimp only
  rw [(updTimes_fields m _).2.1]
  rw [(updAssistant_fields tbl m _).2.1]
  dsimp only
  rw [(updCommands_fields m _).2.1, (updToolResult_fields m _).2.1, (updToolUse_fields m _).2.1,
    (updTier_fields m _).2.1, (updUser_fields m _).2.1, (updCwd_fields m _).2.1,
    (updFirstUser_fields m _).2.1, (updSummaryMeta_fields m _).2.1, updSessionId_summary]

theorem processMsg_firstUser (tbl : PricingTable) (m : Message) (st : PState) :
    (processMsg tbl m st).conv.firstUserMessage =
      (if st.conv.firstUserMessage = "" then (msgUserText m).getD st.conv.firstUserMessage
       else st.conv.firstUserMessage) := by
  unfold processMsg
  dsimp only
  rw [(updTimes_fields m _).2.2.1]
  rw [(updAssistant_fields tbl m _).2.2]
  dsimp only
  rw [(updCommands_fields m _).2.2.1, (updToolResult_fields m _).2.2.1,
    (updToolUse_fields m _).2.2.1, (updTier_fields m _).2.2.1, (updUser_fields m _).2.2.1,
    (updCwd_fields m _).2.2.1, (updFirstUser_fields m _).2.2.1,
    (updSummaryMeta_fields m _).2.2.1, updSessionId_firstUser]

/-- C5 amended: (batch) between two consecutive cost-bearing assistant lines
with timestamps, `parseJSONLFile`'s line step appends exactly one burn-rate
sample when the minute delta is strictly positive and none otherwise, the
sample's rate being tokens divided by the delta; (live) between two
consecutive activity entries the monitor appends a sample exactly when the
delta is strictly positive AND the newer entry carries a non-zero token
count (not for every positive delta, see the counterexample); and every such
rate value tokens/delta with positive delta is non-negative — division by
zero cannot occur. -/
theorem c5_amended_burn_samples :
    (∀ (tbl : PricingTable) (m : Message) (body : MsgBody) (st : PState) (t t0 : Int),
      m.message = some body → m.type = some "assistant" →
      body.usage.isSome = true → strTruthy body.model = true →
      m.timestamp = some t → st.lastTimestamp = some t0 →
      (processMsg tbl m st).conv.tokenBurnRate =
        st.conv.tokenBurnRate ++
          (if 0 < ((t - t0 : Int) : ℚ) / 1000 / 60 then
            [(⟨t, ((calculateTokens body.usage).total : ℚ) / (((t - t0 : Int) : ℚ) / 1000 / 60),
              (calculateTokens body.usage).total,
              calculateCost tbl body.usage (body.model.getD "")⟩ : BurnSample)]
          else [])) ∧
    (∀ (s : Session) (u : Update) (lastAct : Update),
      s.recentActivity.getLast? = some lastAct →
      (applyUpdate s u).tokenBurnRate =
        s.tokenBurnRate ++
          (if 0 < ((u.timestamp - lastAct.timestamp : Int) : ℚ) / 1000 / 60 ∧ updTokensTruthy u
           then [(⟨u.timestamp, (u.tokens.getD 0 : ℚ) /
               (((u.timestamp - lastAct.timestamp : Int) : ℚ) / 1000 / 60),
               u.tokens.getD 0⟩ : MonBurnSample)]
           else [])) ∧
    (∀ (usage : Option Usage) (delta : ℚ), 0 < delta →
      0 ≤ ((calculateTokens usage).total : ℚ) / delta) := by
  refine ⟨?_, ?_, ?_⟩
  · intro tbl m body st t t0 hm ht hu hmod hts hlast
    unfold processMsg
    dsimp only
    rw [(updTimes_fields m _).2.2.2]
    rw [(updAssistant_burn_char tbl m body _ hm ht ⟨hu, hmod⟩).1]
    rw [hts]
    dsimp only
    rw [hlast]
    dsimp only
    rw [(updCommands_fields m _).2.2.2, (updToolResult_fields m _).2.2.2,
      (updToolUse_fields m _).2.2.2, (updTier_fields m _).2.2.2, (updUser_fields m _).2.2.2,
      (updCwd_fields m _).2.2.2, (updFirstUser_fields m _).2.2.2,
      (updSummaryMeta_fields m _).2.2.2, updSessionId_burn]
  · intro s u lastAct h
    rw [applyUpdate_burn, h]
  · intro usage delta hd
    exact div_nonneg (Nat.cast_nonneg _) (le_of_lt hd)

/-- The nested body of the witness assistant line: model present, 2000 input
tokens. -/
def c5wbody : MsgBody := { model := some "claude", usage := some { input_tokens := some 2000 } }

/-- The witness assistant line at minute 2. -/
def c5wm : Message :=
  { type := some "assistant", timestamp := some 120000, message := some c5wbody }

/-- C5 witness: applying the amended theorem at a concrete cost-bearing
assistant line two minutes after the previous one (2000 tokens) yields one
sample of rate 1000 tokens/minute. -/
theorem c5_amended_witness :
    (processMsg tblDefault c5wm ⟨initConv, some 0⟩).conv.tokenBurnRate =
      [(⟨120000, 1000, 2000, 3/500⟩ : BurnSample)] := by
  have h := c5_amended_burn_samples.1 tblDefault c5wm c5wbody ⟨initConv, some 0⟩ 120000 0
    rfl rfl rfl rfl rfl rfl
  rw [h]
  norm_num [calculateTokens, calculateCost, tblDefault, c5wbody, initConv]

theorem strTruthy_some {s : String} (h : strTruthy (some s) = true) : s ≠ "" := by
  simpa [strTruthy] using h

theorem strTake_ne_empty (s : String) (n : Nat) (hn : n ≠ 0) (h : s ≠ "") :
    strTake s n ≠ "" := by
  unfold strTake
  intro heq
  have hdata : s.data.take n = [] := by
    have hd := congrArg String.data heq
    simpa using hd
  rcases List.take_eq_nil_iff.mp hdata with h1 | h2
  · exact hn h1
  · exact h (String.ext (h2.trans rfl))

theorem msgUserText_ne_empty (m : Message) (f : String) (h : msgUserText m = some f) :
    f ≠ "" := by
  unfold msgUserText at h
  split at h
  · next hc =>
    have htx : strTruthy m.text = true := hc.2
    cases hmt : m.text with
    | none => rw [hmt] at htx; simp [strTruthy] at htx
    | some s =>
      rw [hmt] at htx h
      have hs : s ≠ "" := strTruthy_some htx
      have hne := strTake_ne_empty s 100 (by norm_num) hs
      injection h with h'
      rw [← h']
      simpa using hne
  · exact absurd h (by simp)

theorem msgSummaryText_ne_empty (m : Message) (t : String) (h : msgSummaryText m = some t) :
    t ≠ "" := by
  unfold msgSummaryText at h
  split at h
  · next hc =>
    have hsm : strTruthy m.summary = true := hc.2
    cases hms : m.summary with
    | none => rw [hms] at hsm; simp [strTruthy] at hsm
    | some s =>
      rw [hms] at hsm h
      injection h with h'
      rw [← h']
      simpa using strTruthy_some hsm
  · exact absurd h (by simp)

theorem msgMetaTitle_ne_empty (m : Message) (t : String) (h : msgMetaTitle m = some t) :
    t ≠ "" := by
  unfold msgMetaTitle at h
  split at h
  · split at h
    · next md _ =>
      split at h
      · next h1 =>
        cases hms : md.summary with
        | none => rw [hms] at h1; simp [strTruthy] at h1
        | some s =>
          rw [hms] at h1 h
          injection h with h'
          rw [← h']
          simpa using strTruthy_some h1
      · split at h
        · next h2 =>
          cases hms : md.thread_summary with
          | none => rw [hms] at h2; simp [strTruthy] at h2
          | some s =>
            rw [hms] at h2 h
            injection h with h'
            rw [← h']
            simpa using strTruthy_some h2
        · exact absurd h (by simp)
    · exact absurd h (by simp)
  · exact absurd h (by simp)

theorem getLast_cons_getD {α : Type} (v : α) (xs : List α) (d : α) :
    ((v :: xs).getLast?).getD d = (xs.getLast?).getD v := by
  cases xs with
  | nil => rfl
  | cons x xs' =>
    rw [List.getLast?_cons_cons]
    obtain ⟨a, ha⟩ :=
      Option.isSome_iff_exists.mp (List.getLast?_isSome.mpr (List.cons_ne_nil x xs'))
    rw [ha]
    rfl

theorem foldLines_title (tbl : PricingTable) (lines : List Line) (st : PState) :
    (lines.foldl (processLine tbl) st).conv.conversationTitle =
      ((lines.filterMap (fun l => (lineMsg l).bind msgMetaTitle)).getLast?).getD
        st.conv.conversationTitle := by
  induction lines generalizing st with
  | nil => rfl
  | cons l ls ih =>
    rw [List.foldl_cons, ih]
    cases l with
    | malformed => simp [lineMsg, List.filterMap_cons, processLine]
    | ok m =>
      have hstep : processLine tbl st (Line.ok m) = processMsg tbl m st := rfl
      rw [hstep, processMsg_title]
      cases hmt : msgMetaTitle m with
      | none => simp [lineMsg, List.filterMap_cons, hmt]
      | some v =>
        have hfc : List.filterMap (fun l => (lineMsg l).bind msgMetaTitle) (Line.ok m :: ls) =
            v :: List.filterMap (fun l => (lineMsg l).bind msgMetaTitle) ls := by
          simp [lineMsg, List.filterMap_cons, hmt]
        rw [hfc, getLast_cons_getD]
        simp

theorem foldLines_summary (tbl : PricingTable) (lines : List Line) (st : PState) :
    (lines.foldl (processLine tbl) st).conv.summary =
      ((lines.filterMap (fun l => (lineMsg l).bind msgSummaryText)).getLast?).getD
        st.conv.summary := by
  induction lines generalizing st with
  | nil => rfl
  | cons l ls ih =>
    rw [List.foldl_cons, ih]
    cases l with
    | malformed => simp [lineMsg, List.filterMap_cons, processLine]
    | ok m =>
      have hstep : processLine tbl st (Line.ok m) = processMsg tbl m st := rfl
      rw [hstep, processMsg_summary]
      cases hmt : msgSummaryText m with
      | none => simp [lineMsg, List.filterMap_cons, hmt]
      | some v =>
        have hfc : List.filterMap (fun l => (lineMsg l).bind msgSummaryText) (Line.ok m :: ls) =
            v :: List.filterMap (fun l => (lineMsg l).bind msgSummaryText) ls := by
          simp [lineMsg, List.filterMap_cons, hmt]
        rw [hfc, getLast_cons_getD]
        simp

theorem foldLines_firstUser (tbl : PricingTable) (lines : List Line) (st : PState) :
    (lines.foldl (processLine tbl) st).conv.firstUserMessage =
      (if st.conv.firstUserMessage = "" then
        ((lines.filterMap (fun l => (lineMsg l).bind msgUserText)).head?).getD ""
       else st.conv.firstUserMessage) := by
  induction lines generalizing st with
  | nil => by_cases h : st.conv.firstUserMessage = "" <;> simp [h]
  | cons l ls ih =>
    rw [List.foldl_cons, ih]
    cases l with
    | malformed => simp [lineMsg, List.filterMap_cons, processLine]
    | ok m =>
      have hstep : processLine tbl st (Line.ok m) = processMsg tbl m st := rfl
      rw [hstep, processMsg_firstUser]
      by_cases he : st.conv.firstUserMessage = ""
      · cases hmu : msgUserText m with
        | none => simp [lineMsg, List.filterMap_cons, hmu, he]
        | some f =>
          have hf : f ≠ "" := msgUserText_ne_empty m f hmu
          simp [lineMsg, List.filterMap_cons, hmu, he, hf]
      · simp [he]

theorem finalizeConv_title (convId : String) (st : PState) :
    (finalizeConv convId st).conversationTitle =
      normalizeTitle (if st.conv.conversationTitle = "" then
          (if st.conv.summary ≠ "" then st.conv.summary
           else if st.conv.firstUserMessage ≠ "" then st.conv.firstUserMessage
           else "Untitled conversation")
        else st.conv.conversationTitle) := by
  unfold finalizeConv
  (repeat' first | split | dsimp only) <;> simp_all

/-- C4 counterexample line: one summary line carrying BOTH metadata titles. -/
def c4msg : Message :=
  { type := some "summary",
    metadata := some { thread_summary := some "A", summary := some "B" } }

/-- C4 counterexample: on a file whose single line carries both
thread-summary "A" and summary-field "B" metadata, the parser's title is "B"
— the summary field overwrites the thread-summary field — whereas the
claimed priority order (thread-summary before summary-field) demands "A". -/
theorem c4_counterexample_summary_overwrites_thread :
    (parseJSONLFile tblDefault "conv" [Line.ok c4msg]).conversationTitle = "B" ∧
    ("B" : String) ≠ "A" := by
  constructor
  · rfl
  · decide

/-- C4 amended: for every file, the final title is produced by this policy:
the LAST metadata-title assignment wins, where within a single summary line
the summary field overwrites the thread-summary field; with no metadata
title, fall back to the last running-summary text, then the FIRST user
message (truncated to 100 characters at capture), then the literal
"Untitled conversation"; finally newlines are flattened to spaces and the
result truncated to 100 characters. -/
theorem c4_amended_title_policy (tbl : PricingTable) (convId : String) (lines : List Line) :
    (parseJSONLFile tbl convId lines).conversationTitle = titleSpec lines := by
  unfold parseJSONLFile
  rw [finalizeConv_title]
  unfold titleSpec parseLines
  rw [foldLines_title, foldLines_summary, foldLines_firstUser]
  dsimp only
  rw [List.filterMap_filterMap, List.filterMap_filterMap, List.filterMap_filterMap]
  simp only [initConv]
  congr 1
  cases hA : (lines.filterMap (fun l => (lineMsg l).bind msgMetaTitle)).getLast? with
  | some t =>
    have ht : t ≠ "" := by
      have hmem := List.mem_of_getLast?_eq_some hA
      obtain ⟨l, _, hl⟩ := List.mem_filterMap.mp hmem
      cases l with
      | malformed => simp [lineMsg] at hl
      | ok m =>
        simp only [lineMsg, Option.some_bind] at hl
        exact msgMetaTitle_ne_empty m t hl
    simp [ht]
  | none =>
    simp only [Option.getD_none]
    cases hB : (lines.filterMap (fun l => (lineMsg l).bind msgSummaryText)).getLast? with
    | some s =>
      have hs : s ≠ "" := by
        have hmem := List.mem_of_getLast?_eq_some hB
        obtain ⟨l, _, hl⟩ := List.mem_filterMap.mp hmem
        cases l with
        | malformed => simp [lineMsg] at hl
        | ok m =>
          simp only [lineMsg, Option.some_bind] at hl
          exact msgSummaryText_ne_empty m s hl
      simp [hs]
    | none =>
      simp only [Option.getD_none]
      cases hC : (lines.filterMap (fun l => (lineMsg l).bind msgUserText)).head? with
      | some f =>
        have hf : f ≠ "" := by
          obtain ⟨ys, hys⟩ := List.head?_eq_some_iff.mp hC
          have hmem : f ∈ lines.filterMap (fun l => (lineMsg l).bind msgUserText) := by
            rw [hys]; exact List.mem_cons_self f ys
          obtain ⟨l, _, hl⟩ := List.mem_filterMap.mp hmem
          cases l with
          | malformed => simp [lineMsg] at hl
          | ok m =>
            simp only [lineMsg, Option.some_bind] at hl
            exact msgUserText_ne_empty m f hl
        simp [hf]
      | none => simp

/-- C8: with alerts enabled and a non-empty burn-rate history, the burn-rate
alert check averages the most recent five (or fewer) samples — the slice
dropped to the last 5, whose length is min(length, 5) — and produces exactly
one token_burn_rate alert of severity critical when that mean strictly
exceeds the threshold, and none otherwise. -/
theorem c8_burn_rate_alert (th : AlertThresholds) (s : Session)
    (hen : th.enabled = true) (hne : s.tokenBurnRate ≠ []) :
    ((checkSessionAlerts th s).filter
        (fun a => a.type == AlertType.token_burn_rate && a.severity == Severity.critical)).length =
      (if th.tokenBurnRateThreshold <
          rateSum (s.tokenBurnRate.drop (s.tokenBurnRate.length - 5)) /
            ((s.tokenBurnRate.drop (s.tokenBurnRate.length - 5)).length : ℚ)
        then 1 else 0) ∧
    (s.tokenBurnRate.drop (s.tokenBurnRate.length - 5)).length =
      min s.tokenBurnRate.length 5 := by
  constructor
  · have hlen : s.tokenBurnRate.length > 0 := List.length_pos.mpr hne
    unfold checkSessionAlerts
    by_cases hcost : th.sessionCostThreshold < s.totalCost <;>
      simp [hen, hcost, hlen, List.filter_append] <;>
      split <;> simp_all
  · rw [List.length_drop]
    omega

/-- The witness threshold configuration: enabled, burn threshold 10000. -/
def c8th : AlertThresholds := ⟨true, 10, 2, 10000⟩

/-- The witness session: five burn-rate samples of 12000 tokens/minute. -/
def c8s : Session :=
  { sessionId := "sess", startTime := 0, lastUpdate := 0, totalCost := 0, totalTokens := 0,
    messages := 0,
    tokenBurnRate := [⟨0, 12000, 100⟩, ⟨1, 12000, 100⟩, ⟨2, 12000, 100⟩,
      ⟨3, 12000, 100⟩, ⟨4, 12000, 100⟩],
    recentActivity := [] }

/-- C8 witness: mean of the last five samples 12000 > threshold 10000 gives
exactly one critical token_burn_rate alert. -/
theorem c8_burn_rate_alert_witness :
    ((checkSessionAlerts c8th c8s).filter
        (fun a => a.type == AlertType.token_burn_rate && a.severity == Severity.critical)).length
      = 1 := by
  have h := (c8_burn_rate_alert c8th c8s rfl (by simp [c8s])).1
  rw [h]
  norm_num [c8s, c8th, rateSum]

/-- The hour of day (0-23) of an epoch-millisecond timestamp, `getHours`
modelled at UTC offset. -/
def hourOf (t : Int) : Nat := ((t / 3600000) % 24).toNat

/-- One hourly bucket of `ConversationAnalyzer.aggregateHourlyCosts`. -/
structure HourBucket where
  hour : Nat
  totalCost : ℚ
  totalTokens : Nat
  conversationCount : Nat
  deriving DecidableEq, Repr

/-- Accumulate a qualifying conversation into its hour bucket. -/
def addToBucket (b : HourBucket) (c : Conv) : HourBucket :=
  { b with
    totalCost := b.totalCost + c.totalCost,
    totalTokens := b.totalTokens + c.totalTokens.total,
    conversationCount := b.conversationCount + 1 }

/-- The bucket of hour `h`: fold the conversations in order, adding those
with positive cost and a start time in hour `h`. The JS builds a sparse
hour-keyed object in the same conversation order, fills the missing hours
with zero buckets, and sorts ascending by hour; evaluating the per-hour fold
at hours 0..23 in order yields exactly that bucket sequence. -/
def hourlyBucket (convs : List Conv) (h : Nat) : HourBucket :=
  convs.foldl
    (fun b c =>
      match c.startTime with
      | some t => if 0 < c.totalCost ∧ hourOf t = h then addToBucket b c else b
      | none => b)
    ⟨h, 0, 0, 0⟩

/-- `ConversationAnalyzer.aggregateHourlyCosts` (unnamed part_000 lines
105-133): always the 24 buckets for hours 0..23 in ascending order. -/
def aggregateHourlyCosts (convs : List Conv) : List HourBucket :=
  (List.range 24).map (hourlyBucket convs)

theorem hourlyBucket_hour (convs : List Conv) (h : Nat) : (hourlyBucket convs h).hour = h := by
  unfold hourlyBucket
  suffices H : ∀ b : HourBucket,
      (convs.foldl
        (fun b c =>
          match c.startTime with
          | some t => if 0 < c.totalCost ∧ hourOf t = h then addToBucket b c else b
          | none => b) b).hour = b.hour by
    exact H ⟨h, 0, 0, 0⟩
  intro b
  induction convs generalizing b with
  | nil => rfl
  | cons c cs ih =>
    rw [List.foldl_cons, ih]
    cases c.startTime with
    | none => rfl
    | some t =>
      dsimp only
      split <;> rfl

theorem hourlyBucket_nonneg (convs : List Conv) (h : Nat) :
    0 ≤ (hourlyBucket convs h).totalCost := by
  unfold hourlyBucket
  suffices H : ∀ b : HourBucket, 0 ≤ b.totalCost →
      0 ≤ (convs.foldl
        (fun b c =>
          match c.startTime with
          | some t => if 0 < c.totalCost ∧ hourOf t = h then addToBucket b c else b
          | none => b) b).totalCost by
    exact H ⟨h, 0, 0, 0⟩ le_rfl
  intro b hb
  induction convs generalizing b with
  | nil => exact hb
  | cons c cs ih =>
    rw [List.foldl_cons]
    apply ih
    cases c.startTime with
    | none => exact hb
    | some t =>
      dsimp only
      split
      · next hq => exact add_nonneg hb (le_of_lt hq.1)
      · exact hb

/-- C6: for every conversation set, including the empty one, the hourly
aggregation yields exactly 24 buckets whose hours are 0..23 in ascending
order, and every bucket has a non-negative totalCost. -/
theorem c6_hourly_buckets (convs : List Conv) :
    (aggregateHourlyCosts convs).map HourBucket.hour = List.range 24 ∧
    (∀ b ∈ aggregateHourlyCosts convs, 0 ≤ b.totalCost) ∧
    (aggregateHourlyCosts convs).length = 24 := by
  refine ⟨?_, ?_, ?_⟩
  · unfold aggregateHourlyCosts
    rw [List.map_map]
    have heq : ∀ h ∈ List.range 24, (HourBucket.hour ∘ hourlyBucket convs) h = id h := by
      intro h _
      simp [hourlyBucket_hour]
    rw [List.map_congr_left heq, List.map_id]
  · intro b hb
    obtain ⟨h, _, rfl⟩ := List.mem_map.mp hb
    exact hourlyBucket_nonneg convs h
  · simp [aggregateHourlyCosts]

/-- C6 witness: instantiating the hourly-bucket theorem on the empty set at
the hour-0 bucket. -/
theorem c6_hourly_buckets_witness :
    0 ≤ ((⟨0, (0 : ℚ), 0, 0⟩ : HourBucket)).totalCost :=
  (c6_hourly_buckets []).2.1 ⟨0, 0, 0, 0⟩ (by decide)

theorem lookup_updW_ne {β : Type} (m : List (String × β)) (k k' : String) (f : β → β) (d : β)
    (h : k' ≠ k) : List.lookup k' (updW m k f d) = List.lookup k' m := by
  induction m with
  | nil => simp [updW, List.lookup_cons, beq_false_of_ne h]
  | cons p rest ih =>
    obtain ⟨k1, v1⟩ := p
    unfold updW
    by_cases hk : k1 = k
    · subst hk
      simp [List.lookup_cons, beq_false_of_ne h]
    · simp only [if_neg hk, List.lookup_cons, ih]

theorem lookup_updW_self {β : Type} (m : List (String × β)) (k : String) (f : β → β) (d : β) :
    List.lookup k (updW m k f d) = some (f ((List.lookup k m).getD d)) := by
  induction m with
  | nil => simp [updW, List.lookup_cons]
  | cons p rest ih =>
    obtain ⟨k1, v1⟩ := p
    unfold updW
    by_cases hk : k1 = k
    · subst hk
      simp [List.lookup_cons]
    · simp [if_neg hk, List.lookup_cons, beq_false_of_ne (Ne.symm hk), ih]

/-- A JSON-like JavaScript value: string, number, boolean, null, array, or
plain object with insertion-ordered own fields. -/
inductive JVal where
  | str : String → JVal
  | num : ℚ → JVal
  | bool : Bool → JVal
  | null : JVal
  | arr : List JVal → JVal
  | obj : List (String × JVal) → JVal
  deriving Repr

/-- The three keys skipped by `SecurityUtils.safeMerge`. -/
def forbiddenKeys : List String := ["__proto__", "constructor", "prototype"]

/-- The own enumerable fields produced by the spread `{...v}`: the fields of
an object, index-keyed elements of an array or string, nothing otherwise. -/
def spreadFields : JVal → List (String × JVal)
  | JVal.obj fs => fs
  | JVal.arr xs => xs.enum.map (fun p => (toString p.1, p.2))
  | JVal.str s => s.data.enum.map (fun p => (toString p.1, JVal.str (String.mk [p.2])))
  | _ => []

/-- A truthy value of JS typeof 'object': a plain object or an array. -/
def isObjLike : JVal → Bool
  | JVal.obj _ => true
  | JVal.arr _ => true
  | _ => false

/-- A truthy non-array object (the merge-recursion guard on source values). -/
def isMergeableObj : JVal → Bool
  | JVal.obj _ => true
  | _ => false

/-- JS `output[key] = v`: overwrite in place, or append a new key. -/
def setKey (out : List (String × JVal)) (k : String) (v : JVal) : List (String × JVal) :=
  updW out k (fun _ => v) v


/-- `SecurityUtils.safeMerge` (security.js lines 101-129), returning the
field list of the output object: shallow copy of the target, then the
`for key in source` loop over a non-array-object source — forbidden keys
skipped, a non-array-object source value merged recursively when the target
value at that key is a truthy object, any other source value assigned
directly. The loop is a left fold over the source fields; `attach` only
carries the membership proof used for termination. -/
def safeMerge (target source : JVal) : List (String × JVal) :=
  match source with
  | JVal.obj fs =>
    fs.attach.foldl
      (fun out kv =>
        let k := kv.1.1
        let v := kv.1.2
        if k ∈ forbiddenKeys then out
        else
          match v with
          | JVal.obj _ =>
            (match List.lookup k (spreadFields target) with
             | some tv =>
               if isObjLike tv then setKey out k (JVal.obj (safeMerge tv v))
               else setKey out k v
             | none => setKey out k v)
          | _ => setKey out k v)
      (spreadFields target)
  | _ => spreadFields target
termination_by sizeOf source
decreasing_by
  all_goals simp_wf
  have h1 := List.sizeOf_lt_of_mem kv.2
  have h2 : sizeOf kv.1 = 1 + sizeOf kv.1.1 + sizeOf kv.1.2 := rfl
  omega

/-- Does a value contain one of the three forbidden keys at any nesting
depth (own object fields, recursively through objects and arrays). -/
def hasForbiddenKey (w : JVal) : Bool :=
  match w with
  | JVal.obj fs =>
    fs.attach.any (fun kv => forbiddenKeys.contains kv.1.1 || hasForbiddenKey kv.1.2)
  | JVal.arr xs => xs.attach.any (fun xv => hasForbiddenKey xv.1)
  | _ => false
termination_by sizeOf w
decreasing_by
  all_goals simp_wf
  · have h1 := List.sizeOf_lt_of_mem kv.2
    have h2 : sizeOf kv.1 = 1 + sizeOf kv.1.1 + sizeOf kv.1.2 := rfl
    omega
  · have h1 := List.sizeOf_lt_of_mem xv.2
    omega

/-- Forbidden-key search over a field list (the output of `safeMerge`). -/
def hasForbiddenFields (fs : List (String × JVal)) : Bool :=
  hasForbiddenKey (JVal.obj fs)

theorem lookup_foldl_preserved {γ : Type} (f : String)
    (step : List (String × JVal) → γ → List (String × JVal))
    (hstep : ∀ out x, List.lookup f (step out x) = List.lookup f out) :
    ∀ (xs : List γ) (out : List (String × JVal)),
      List.lookup f (xs.foldl step out) = List.lookup f out := by
  intro xs
  induction xs with
  | nil => intro out; rfl
  | cons x xs ih =>
    intro out
    rw [List.foldl_cons, ih, hstep]

/-- C10 counterexample target: the empty object (no forbidden keys). -/
def c10target : JVal := JVal.obj []

/-- C10 counterexample source: a benign key whose value object carries an own
proto-named key. -/
def c10source : JVal :=
  JVal.obj [("a", JVal.obj [("__proto__", JVal.num 1)])]

/-- C10 counterexample: `safeMerge` copies the source subtree under "a"
wholesale (the target has no object there to merge into), so the forbidden
key it contains at depth two lands in the output — the claim "never copies
the keys __proto__/constructor/prototype from the source at any nesting
depth" fails; the target itself contained no forbidden key. -/
theorem c10_counterexample_nested_forbidden_copied :
    hasForbiddenKey c10target = false ∧
    hasForbiddenFields (safeMerge c10target c10source) = true := by
  constructor
  · simp [c10target, hasForbiddenKey, List.attach, List.attachWith]
  · simp [c10target, c10source, safeMerge, hasForbiddenFields, hasForbiddenKey,
      List.attach, List.attachWith, List.pmap, forbiddenKeys, setKey, updW,
      spreadFields, isObjLike]

/-- C10 amended: at every level the merge itself iterates, `safeMerge` never
assigns a forbidden key taken from the source — the output's value at
__proto__/constructor/prototype is exactly the target's shallow-copy value —
and when the source is not a non-array object the result is the target's
shallow copy unchanged; however a source subtree assigned wholesale (when
the target holds no mergeable object at that key) is copied as-is, including
any forbidden keys nested inside it (see the counterexample). -/
theorem c10_amended_safeMerge :
    (∀ (target source : JVal) (f : String), f ∈ forbiddenKeys →
      List.lookup f (safeMerge target source) = List.lookup f (spreadFields target)) ∧
    (∀ (target source : JVal), isMergeableObj source = false →
      safeMerge target source = spreadFields target) := by
  constructor
  · intro target source f hf
    cases source with
    | obj fs =>
      rw [safeMerge]
      apply lookup_foldl_preserved
      intro out kv
      dsimp only
      by_cases hk : kv.1.1 ∈ forbiddenKeys
      · simp [hk]
      · have hne : f ≠ kv.1.1 := fun hfk => hk (hfk ▸ hf)
        simp only [hk, if_false]
        cases hv : kv.1.2 with
        | obj innerFs =>
          cases List.lookup kv.1.1 (spreadFields target) with
          | none => exact lookup_updW_ne out kv.1.1 f _ _ hne
          | some tv =>
            by_cases ho : isObjLike tv = true <;>
              simp only [ho, if_true, if_false, Bool.false_eq_true] <;>
              exact lookup_updW_ne out kv.1.1 f _ _ hne
        | str s => exact lookup_updW_ne out kv.1.1 f _ _ hne
        | num q => exact lookup_updW_ne out kv.1.1 f _ _ hne
        | bool b => exact lookup_updW_ne out kv.1.1 f _ _ hne
        | null => exact lookup_updW_ne out kv.1.1 f _ _ hne
        | arr xs => exact lookup_updW_ne out kv.1.1 f _ _ hne
    | str s => rw [safeMerge] <;> simp
    | num q => rw [safeMerge] <;> simp
    | bool b => rw [safeMerge] <;> simp
    | null => rw [safeMerge] <;> simp
    | arr xs => rw [safeMerge] <;> simp
  · intro target source hs
    cases source with
    | obj fs => simp [isMergeableObj] at hs
    | str s => rw [safeMerge] <;> simp
    | num q => rw [safeMerge] <;> simp
    | bool b => rw [safeMerge] <;> simp
    | null => rw [safeMerge] <;> simp
    | arr xs => rw [safeMerge] <;> simp

/-- C10 witness: the amended theorem applied at concrete values — merging a
source that tries to set __proto__ directly leaves the output's __proto__
lookup equal to the target's, and a numeric source returns the shallow copy. -/
theorem c10_amended_safeMerge_witness :
    List.lookup "__proto__"
        (safeMerge (JVal.obj [("x", JVal.num 1)]) (JVal.obj [("__proto__", JVal.num 2)])) =
      List.lookup "__proto__" (spreadFields (JVal.obj [("x", JVal.num 1)])) ∧
    safeMerge (JVal.obj [("x", JVal.num 1)]) (JVal.num 5) =
      spreadFields (JVal.obj [("x", JVal.num 1)]) :=
  ⟨c10_amended_safeMerge.1 (JVal.obj [("x", JVal.num 1)]) (JVal.obj [("__proto__", JVal.num 2)])
      "__proto__" (by decide),
   c10_amended_safeMerge.2 (JVal.obj [("x", JVal.num 1)]) (JVal.num 5) rfl⟩

/-- The generic shape of every analyzer accumulation loop: fold a list of
items into a string-keyed map with the create-if-absent-then-mutate idiom. -/
def accW {α β : Type} (keyOf : α → String) (upd : α → β → β) (d : α → β)
    (m : List (String × β)) (xs : List α) : List (String × β) :=
  xs.foldl (fun m x => updW m (keyOf x) (upd x) (d x)) m

theorem accW_append {α β : Type} (keyOf : α → String) (upd : α → β → β) (d : α → β)
    (m : List (String × β)) (xs ys : List α) :
    accW keyOf upd d m (xs ++ ys) = accW keyOf upd d (accW keyOf upd d m xs) ys := by
  unfold accW
  rw [List.foldl_append]

theorem lookup_accW_some {α β : Type} (keyOf : α → String) (upd : α → β → β) (d : α → β)
    (k : String) :
    ∀ (xs : List α) (m : List (String × β)) (v : β), List.lookup k m = some v →
      List.lookup k (accW keyOf upd d m xs) =
        some ((xs.filter (fun x => keyOf x = k)).foldl (fun v x => upd x v) v) := by
  intro xs
  induction xs with
  | nil => intro m v hm; simpa using hm
  | cons x xs ih =>
    intro m v hm
    show List.lookup k (accW keyOf upd d (updW m (keyOf x) (upd x) (d x)) xs) = _
    by_cases hx : keyOf x = k
    · have hm' : List.lookup k (updW m (keyOf x) (upd x) (d x)) = some (upd x v) := by
        rw [hx, lookup_updW_self, hm]
        rfl
      rw [ih _ _ hm']
      simp [List.filter_cons, hx]
    · have hm' : List.lookup k (updW m (keyOf x) (upd x) (d x)) = some v := by
        rw [lookup_updW_ne _ _ _ _ _ (fun hkx => hx hkx.symm)]
        exact hm
      rw [ih _ _ hm']
      simp [List.filter_cons, hx]

theorem lookup_accW_none_nil {α β : Type} (keyOf : α → String) (upd : α → β → β) (d : α → β)
    (k : String) :
    ∀ (xs : List α) (m : List (String × β)), List.lookup k m = none →
      xs.filter (fun x => keyOf x = k) = [] →
      List.lookup k (accW keyOf upd d m xs) = none := by
  intro xs
  induction xs with
  | nil => intro m hm _; simpa using hm
  | cons x xs ih =>
    intro m hm hf
    rw [List.filter_cons] at hf
    by_cases hx : keyOf x = k
    · simp [hx] at hf
    · simp only [hx, decide_eq_true_eq, if_neg, Bool.false_eq_true] at hf
      rw [if_neg (by simp [hx])] at hf
      show List.lookup k (accW keyOf upd d (updW m (keyOf x) (upd x) (d x)) xs) = none
      apply ih _ _ hf
      rw [lookup_updW_ne _ _ _ _ _ (fun hkx => hx hkx.symm)]
      exact hm

theorem lookup_accW_none_cons {α β : Type} (keyOf : α → String) (upd : α → β → β) (d : α → β)
    (k : String) :
    ∀ (xs : List α) (m : List (String × β)) (x0 : α) (rest : List α),
      List.lookup k m = none →
      xs.filter (fun x => keyOf x = k) = x0 :: rest →
      List.lookup k (accW keyOf upd d m xs) =
        some (rest.foldl (fun v x => upd x v) (upd x0 (d x0))) := by
  intro xs
  induction xs with
  | nil => intro m x0 rest _ hf; simp at hf
  | cons x xs ih =>
    intro m x0 rest hm hf
    rw [List.filter_cons] at hf
    by_cases hx : keyOf x = k
    · rw [if_pos (by simp [hx])] at hf
      injection hf with hx0 hrest
      subst hx0
      subst hrest
      have hm' : List.lookup k (updW m (keyOf x) (upd x) (d x)) = some (upd x (d x)) := by
        rw [hx, lookup_updW_self, hm]
        rfl
      show List.lookup k (accW keyOf upd d (updW m (keyOf x) (upd x) (d x)) xs) = _
      exact lookup_accW_some keyOf upd d k xs _ _ hm'
    · rw [if_neg (by simp [hx])] at hf
      have hm' : List.lookup k (updW m (keyOf x) (upd x) (d x)) = none := by
        rw [lookup_updW_ne _ _ _ _ _ (fun hkx => hx hkx.symm)]
        exact hm
      show List.lookup k (accW keyOf upd d (updW m (keyOf x) (upd x) (d x)) xs) = _
      exact ih _ x0 rest hm' hf

theorem keys_updW_mem {β : Type} (m : List (String × β)) (k : String) (f : β → β) (d : β)
    (hk : k ∈ m.map Prod.fst) : (updW m k f d).map Prod.fst = m.map Prod.fst := by
  induction m with
  | nil => simp at hk
  | cons p rest ih =>
    obtain ⟨k1, v1⟩ := p
    unfold updW
    by_cases h1 : k1 = k
    · simp [h1]
    · simp only [h1, if_false]
      rw [List.map_cons, List.map_cons, ih]
      rw [List.map_cons] at hk
      rcases List.mem_cons.mp hk with h | h
      · exact absurd h.symm h1
      · exact h

theorem keys_updW_not_mem {β : Type} (m : List (String × β)) (k : String) (f : β → β) (d : β)
    (hk : k ∉ m.map Prod.fst) : (updW m k f d).map Prod.fst = m.map Prod.fst ++ [k] := by
  induction m with
  | nil => rfl
  | cons p rest ih =>
    obtain ⟨k1, v1⟩ := p
    unfold updW
    by_cases h1 : k1 = k
    · subst h1
      simp at hk
    · simp only [h1, if_false]
      rw [List.map_cons, List.map_cons, ih (fun hmem => hk (List.mem_cons_of_mem _ hmem))]
      rfl

theorem nodup_keys_updW {β : Type} (m : List (String × β)) (k : String) (f : β → β) (d : β)
    (h : (m.map Prod.fst).Nodup) : ((updW m k f d).map Prod.fst).Nodup := by
  by_cases hk : k ∈ m.map Prod.fst
  · rw [keys_updW_mem m k f d hk]
    exact h
  · rw [keys_updW_not_mem m k f d hk]
    simp [List.nodup_append, h, hk]

theorem nodup_keys_accW {α β : Type} (keyOf : α → String) (upd : α → β → β) (d : α → β) :
    ∀ (xs : List α) (m : List (String × β)), (m.map Prod.fst).Nodup →
      ((accW keyOf upd d m xs).map Prod.fst).Nodup := by
  intro xs
  induction xs with
  | nil => intro m h; exact h
  | cons x xs ih =>
    intro m h
    exact ih _ (nodup_keys_updW m (keyOf x) (upd x) (d x) h)

theorem mem_iff_lookup {β : Type} :
    ∀ (m : List (String × β)), ((m.map Prod.fst).Nodup) → ∀ (k : String) (v : β),
      ((k, v) ∈ m ↔ List.lookup k m = some v) := by
  intro m
  induction m with
  | nil => intro _ k v; simp
  | cons p rest ih =>
    intro hm k v
    obtain ⟨k1, v1⟩ := p
    rw [List.map_cons, List.nodup_cons] at hm
    obtain ⟨hk1, hrest⟩ := hm
    by_cases hk : k = k1
    · subst hk
      constructor
      · intro hmem
        rcases List.mem_cons.mp hmem with h | h
        · injection h with _ hv
          simp [List.lookup_cons, hv]
        · exact absurd (List.mem_map_of_mem Prod.fst h) hk1
      · intro hl
        simp only [List.lookup_cons, beq_self_eq_true] at hl
        injection hl with hv
        subst hv
        exact List.mem_cons_self _ _
    · constructor
      · intro hmem
        rcases List.mem_cons.mp hmem with h | h
        · injection h with hkk _
          exact absurd hkk hk
        · simp only [List.lookup_cons, beq_false_of_ne hk]
          exact (ih hrest k v).mp h
      · intro hl
        simp only [List.lookup_cons, beq_false_of_ne hk] at hl
        exact List.mem_cons_of_mem _ ((ih hrest k v).mpr hl)

theorem foldl_flatMap {α γ δ : Type} (g : α → List γ) (f : δ → γ → δ) :
    ∀ (l : List α) (init : δ),
      (l.flatMap g).foldl f init = l.foldl (fun acc x => (g x).foldl f acc) init := by
  intro l
  induction l with
  | nil => intro init; rfl
  | cons a l ih =>
    intro init
    rw [List.flatMap_cons, List.foldl_append, ih]
    rfl

theorem foldl_add_proj {γ M : Type} [AddCommMonoid M] (f : γ → M) :
    ∀ (l : List γ) (a : M), l.foldl (fun s c => s + f c) a = a + (l.map f).sum := by
  intro l
  induction l with
  | nil => intro a; simp
  | cons c l ih =>
    intro a
    rw [List.foldl_cons, ih, List.map_cons, List.sum_cons, add_assoc]

/-- `ConversationAnalyzer.getConversationsWithCosts`: positive-cost
conversations, sorted by cost descending (stable sort, as JS `sort`). -/
def getConversationsWithCosts (convs : List Conv) : List Conv :=
  (convs.filter (fun c => decide (0 < c.totalCost))).mergeSort
    (fun a b => decide (b.totalCost ≤ a.totalCost))

/-- The record returned by `ConversationAnalyzer.getTotalStats`. -/
structure TotalStats where
  totalCost : ℚ
  totalTokens : Nat
  totalMessages : Nat
  totalDuration : ℚ
  conversationCount : Nat
  averageCost : ℚ
  averageTokens : ℚ
  averageDuration : ℚ
  deriving DecidableEq, Repr

/-- `ConversationAnalyzer.getTotalStats` (unnamed part_000 lines 61-78):
reduce-sums over the positive-cost conversations plus guarded averages. -/
def getTotalStats (convs : List Conv) : TotalStats :=
  { totalCost := (getConversationsWithCosts convs).foldl (fun s c => s + c.totalCost) 0,
    totalTokens := (getConversationsWithCosts convs).foldl (fun s c => s + c.totalTokens.total) 0,
    totalMessages := (getConversationsWithCosts convs).foldl (fun s c => s + c.messageCount) 0,
    totalDuration := (getConversationsWithCosts convs).foldl (fun s c => s + c.duration) 0,
    conversationCount := (getConversationsWithCosts convs).length,
    averageCost :=
      if 0 < (getConversationsWithCosts convs).length then
        ((getConversationsWithCosts convs).foldl (fun s c => s + c.totalCost) 0) /
          ((getConversationsWithCosts convs).length : ℚ)
      else 0,
    averageTokens :=
      if 0 < (getConversationsWithCosts convs).length then
        (((getConversationsWithCosts convs).foldl (fun s c => s + c.totalTokens.total) 0 : Nat) : ℚ) /
          ((getConversationsWithCosts convs).length : ℚ)
      else 0,
    averageDuration :=
      if 0 < (getConversationsWithCosts convs).length then
        ((getConversationsWithCosts convs).foldl (fun s c => s + c.duration) 0) /
          ((getConversationsWithCosts convs).length : ℚ)
      else 0 }

/-- One output record of `aggregateToolUsage`. -/
structure ToolAgg where
  name : String
  totalCount : Nat
  totalCost : ℚ
  totalErrors : Nat
  conversations : Nat
  deriving DecidableEq, Repr

/-- The per-entry mutation of the tool-usage aggregation loop. -/
def updToolAgg (e : String × ToolData) (agg : ToolAgg) : ToolAgg :=
  { agg with
    totalCount := agg.totalCount + e.2.count,
    totalCost := agg.totalCost + e.2.totalCost,
    totalErrors := agg.totalErrors + e.2.errors,
    conversations := agg.conversations + 1 }

/-- The fresh record created for a tool name on first sight. -/
def dToolAgg (e : String × ToolData) : ToolAgg := ⟨e.1, 0, 0, 0, 0⟩

/-- The tool-usage map after the nested forEach loops of
`aggregateToolUsage` (unnamed part_000 lines 135-157). -/
def toolMap (convs : List Conv) : List (String × ToolAgg) :=
  convs.foldl (fun m c => accW (fun e => e.1) updToolAgg dToolAgg m c.toolUsage) []

/-- `ConversationAnalyzer.aggregateToolUsage`: the map's values sorted by
totalCount descending. -/
def aggregateToolUsage (convs : List Conv) : List ToolAgg :=
  ((toolMap convs).map Prod.snd).mergeSort (fun a b => decide (b.totalCount ≤ a.totalCount))

/-- One output record of `aggregateModelUsage`. -/
structure ModelAgg where
  model : String
  totalCount : Nat
  totalCost : ℚ
  totalTokens : UsageTokens
  conversations : Nat
  deriving DecidableEq, Repr

/-- The per-entry mutation of the model-usage aggregation loop. -/
def updModelAgg (e : String × ModelData) (agg : ModelAgg) : ModelAgg :=
  { agg with
    totalCount := agg.totalCount + e.2.count,
    totalCost := agg.totalCost + e.2.cost,
    totalTokens := addUT agg.totalTokens e.2.tokens,
    conversations := agg.conversations + 1 }

/-- The fresh record created for a model id on first sight. -/
def dModelAgg (e : String × ModelData) : ModelAgg := ⟨e.1, 0, 0, ⟨0, 0, 0, 0, 0⟩, 0⟩

/-- The model-usage map after the nested forEach loops of
`aggregateModelUsage` (unnamed part_000 lines 159-185). -/
def modelMap (convs : List Conv) : List (String × ModelAgg) :=
  convs.foldl (fun m c => accW (fun e => e.1) updModelAgg dModelAgg m c.models) []

/-- `ConversationAnalyzer.aggregateModelUsage`: values sorted by totalCost
descending. -/
def aggregateModelUsage (convs : List Conv) : List ModelAgg :=
  ((modelMap convs).map Prod.snd).mergeSort (fun a b => decide (b.totalCost ≤ a.totalCost))

/-- The nested per-tool record of a project entry. -/
structure PTool where
  count : Nat
  cost : ℚ
  deriving DecidableEq, Repr

/-- The nested per-model record of a project entry. -/
structure PModel where
  count : Nat
  cost : ℚ
  deriving DecidableEq, Repr

/-- One output record of `getProjectStats`. -/
structure ProjStat where
  name : String
  totalCost : ℚ
  totalTokens : Nat
  conversationCount : Nat
  totalDuration : ℚ
  toolUsage : List (String × PTool)
  models : List (String × PModel)
  deriving DecidableEq, Repr

/-- The nested per-tool mutation of the project aggregation. -/
def updPTool (e : String × ToolData) (r : PTool) : PTool :=
  { count := r.count + e.2.count, cost := r.cost + e.2.totalCost }

/-- The fresh nested per-tool record. -/
def dPTool (_ : String × ToolData) : PTool := ⟨0, 0⟩

/-- The nested per-model mutation of the project aggregation. -/
def updPModel (e : String × ModelData) (r : PModel) : PModel :=
  { count := r.count + e.2.count, cost := r.cost + e.2.cost }

/-- The fresh nested per-model record. -/
def dPModel (_ : String × ModelData) : PModel := ⟨0, 0⟩

/-- The per-conversation mutation of a project entry (totals plus the two
nested aggregation loops). -/
def projStep (c : Conv) (r : ProjStat) : ProjStat :=
  { r with
    totalCost := r.totalCost + c.totalCost,
    totalTokens := r.totalTokens + c.totalTokens.total,
    conversationCount := r.conversationCount + 1,
    totalDuration := r.totalDuration + c.duration,
    toolUsage := accW (fun e => e.1) updPTool dPTool r.toolUsage c.toolUsage,
    models := accW (fun e => e.1) updPModel dPModel r.models c.models }

/-- The fresh project entry for a project name. -/
def projInit (c : Conv) : ProjStat := ⟨c.projectName, 0, 0, 0, 0, [], []⟩

/-- The project map after the forEach loop of `getProjectStats`
(unnamed part_000 lines 316-358). -/
def projMap (convs : List Conv) : List (String × ProjStat) :=
  accW (fun c => c.projectName) projStep projInit [] convs

/-- `ConversationAnalyzer.getProjectStats`: values sorted by totalCost
descending. -/
def getProjectStats (convs : List Conv) : List ProjStat :=
  ((projMap convs).map Prod.snd).mergeSort (fun a b => decide (b.totalCost ≤ a.totalCost))

/-- Numeric projections of a project entry. -/
def projNums (r : ProjStat) : ℚ × Nat × Nat × ℚ :=
  (r.totalCost, r.totalTokens, r.conversationCount, r.totalDuration)

/-- The per-project-and-tool nested totals, read off the project map. -/
def projToolLookup (convs : List Conv) (p t : String) : Option PTool :=
  (List.lookup p (projMap convs)).bind (fun r => List.lookup t r.toolUsage)

/-- The per-project-and-model nested totals, read off the project map. -/
def projModelLookup (convs : List Conv) (p mo : String) : Option PModel :=
  (List.lookup p (projMap convs)).bind (fun r => List.lookup mo r.models)

/-- The tool-usage mutation commutes between two entries: the aggregated
record does not depend on the order in which two entries hit the same key. -/
theorem updToolAgg_comm (x y : String × ToolData) (a : ToolAgg) :
    updToolAgg y (updToolAgg x a) = updToolAgg x (updToolAgg y a) := by
  simp [updToolAgg, add_right_comm]

/-- The model-usage mutation commutes between two entries. -/
theorem updModelAgg_comm (x y : String × ModelData) (a : ModelAgg) :
    updModelAgg y (updModelAgg x a) = updModelAgg x (updModelAgg y a) := by
  simp [updModelAgg, addUT, add_right_comm]

/-- The nested per-tool mutation of the project aggregation commutes. -/
theorem updPTool_comm (x y : String × ToolData) (a : PTool) :
    updPTool y (updPTool x a) = updPTool x (updPTool y a) := by
  simp [updPTool, add_right_comm]

/-- The nested per-model mutation of the project aggregation commutes. -/
theorem updPModel_comm (x y : String × ModelData) (a : PModel) :
    updPModel y (updPModel x a) = updPModel x (updPModel y a) := by
  simp [updPModel, add_right_comm]

/-- The nested tool-usage double loop is one keyed accumulation over the
concatenation of all per-conversation entry lists. -/
theorem toolMap_eq_accW (convs : List Conv) :
    toolMap convs =
      accW (fun e => e.1) updToolAgg dToolAgg [] (convs.flatMap (fun c => c.toolUsage)) := by
  unfold toolMap accW
  rw [foldl_flatMap]

/-- The nested model-usage double loop is one keyed accumulation over the
concatenation of all per-conversation entry lists. -/
theorem modelMap_eq_accW (convs : List Conv) :
    modelMap convs =
      accW (fun e => e.1) updModelAgg dModelAgg [] (convs.flatMap (fun c => c.models)) := by
  unfold modelMap accW
  rw [foldl_flatMap]

/-- Looking up one key in a keyed accumulation is invariant under
permutation of the input, provided the mutation commutes and the initial
record depends only on the key (among entries that hit that key). -/
theorem lookup_accW_perm {α β : Type} (keyOf : α → String) (upd : α → β → β) (d : α → β)
    (k : String)
    (hcomm : ∀ x y : α, keyOf x = k → keyOf y = k →
      ∀ a, upd y (upd x a) = upd x (upd y a))
    (hd : ∀ x y : α, keyOf x = k → keyOf y = k → d x = d y)
    {xs1 xs2 : List α} (hp : xs1.Perm xs2) :
    List.lookup k (accW keyOf upd d [] xs1) = List.lookup k (accW keyOf upd d [] xs2) := by
  have hfp := hp.filter (fun x => decide (keyOf x = k))
  cases hc1 : xs1.filter (fun x => decide (keyOf x = k)) with
  | nil =>
    have hc2 : xs2.filter (fun x => decide (keyOf x = k)) = [] := by
      have h' := hfp
      rw [hc1] at h'
      exact h'.symm.eq_nil
    rw [lookup_accW_none_nil keyOf upd d k xs1 [] rfl hc1,
        lookup_accW_none_nil keyOf upd d k xs2 [] rfl hc2]
  | cons x0 rest =>
    have hne2 : xs2.filter (fun x => decide (keyOf x = k)) ≠ [] := by
      intro hnil
      have h' := hfp
      rw [hc1, hnil] at h'
      exact absurd h'.eq_nil (by simp)
    obtain ⟨y0, rest2, hc2⟩ := List.exists_cons_of_ne_nil hne2
    have hmem1 : ∀ x ∈ x0 :: rest, keyOf x = k := by
      intro x hx
      have hxf : x ∈ xs1.filter (fun x => decide (keyOf x = k)) := by
        rw [hc1]; exact hx
      simpa using (List.mem_filter.mp hxf).2
    have hmem2 : ∀ x ∈ y0 :: rest2, keyOf x = k := by
      intro x hx
      have hxf : x ∈ xs2.filter (fun x => decide (keyOf x = k)) := by
        rw [hc2]; exact hx
      simpa using (List.mem_filter.mp hxf).2
    have hpf : (x0 :: rest).Perm (y0 :: rest2) := by
      rw [← hc1, ← hc2]
      exact hfp
    rw [lookup_accW_none_cons keyOf upd d k xs1 [] x0 rest rfl hc1,
        lookup_accW_none_cons keyOf upd d k xs2 [] y0 rest2 rfl hc2]
    congr 1
    show (x0 :: rest).foldl (fun v x => upd x v) (d x0) =
      (y0 :: rest2).foldl (fun v x => upd x v) (d y0)
    rw [hd x0 y0 (hmem1 x0 (List.mem_cons_self _ _)) (hmem2 y0 (List.mem_cons_self _ _))]
    exact hpf.foldl_eq' (fun x hx y hy z => hcomm x y (hmem1 x hx) (hmem1 y hy) z) (d y0)

/-- A keyed accumulation started from the empty map is, as a list of
key-record pairs, permutation-invariant up to permutation of the output,
provided the mutation commutes unconditionally and the initial record
depends only on the key. -/
theorem accW_perm {α β : Type} (keyOf : α → String) (upd : α → β → β) (d : α → β)
    (hcomm : ∀ x y : α, ∀ a, upd y (upd x a) = upd x (upd y a))
    (hd : ∀ x y : α, keyOf x = keyOf y → d x = d y)
    {xs1 xs2 : List α} (hp : xs1.Perm xs2) :
    (accW keyOf upd d [] xs1).Perm (accW keyOf upd d [] xs2) := by
  have hn1 : ((accW keyOf upd d [] xs1).map Prod.fst).Nodup :=
    nodup_keys_accW keyOf upd d xs1 [] (by simp)
  have hn2 : ((accW keyOf upd d [] xs2).map Prod.fst).Nodup :=
    nodup_keys_accW keyOf upd d xs2 [] (by simp)
  rw [List.perm_ext_iff_of_nodup hn1.of_map hn2.of_map]
  rintro ⟨k, v⟩
  rw [mem_iff_lookup _ hn1 k v, mem_iff_lookup _ hn2 k v,
      lookup_accW_perm keyOf upd d k (fun x y _ _ a => hcomm x y a)
        (fun x y hx hy => hd x y (hx.trans hy.symm)) hp]

/-- Permutation of the conversations permutes the tool-usage map. -/
theorem toolMap_perm {l1 l2 : List Conv} (h : l1.Perm l2) :
    (toolMap l1).Perm (toolMap l2) := by
  rw [toolMap_eq_accW, toolMap_eq_accW]
  exact accW_perm _ _ _ updToolAgg_comm
    (fun x y hxy => by simpa [dToolAgg] using hxy) (h.flatMap_right _)

/-- Permutation of the conversations permutes the model-usage map. -/
theorem modelMap_perm {l1 l2 : List Conv} (h : l1.Perm l2) :
    (modelMap l1).Perm (modelMap l2) := by
  rw [modelMap_eq_accW, modelMap_eq_accW]
  exact accW_perm _ _ _ updModelAgg_comm
    (fun x y hxy => by simpa [dModelAgg] using hxy) (h.flatMap_right _)

/-- The numeric fields of a project entry after folding a batch of
conversations: the base plus the componentwise sums over the batch. -/
theorem foldl_projStep_nums (cs : List Conv) : ∀ r : ProjStat,
    projNums (cs.foldl (fun r c => projStep c r) r) =
      (r.totalCost + (cs.map (fun c => c.totalCost)).sum,
       r.totalTokens + (cs.map (fun c => c.totalTokens.total)).sum,
       r.conversationCount + cs.length,
       r.totalDuration + (cs.map (fun c => c.duration)).sum) := by
  induction cs with
  | nil => intro r; simp [projNums]
  | cons c cs ih =>
    intro r
    rw [List.foldl_cons, ih]
    simp only [projStep, projNums, List.map_cons, List.sum_cons, List.length_cons,
      Prod.mk.injEq]
    refine ⟨by ring, by omega, by omega, by ring⟩

/-- The nested tool-usage field of a project entry after folding a batch:
one keyed accumulation over the concatenated entry lists of the batch. -/
theorem foldl_projStep_tools (cs : List Conv) : ∀ r : ProjStat,
    (cs.foldl (fun r c => projStep c r) r).toolUsage =
      accW (fun e => e.1) updPTool dPTool r.toolUsage
        (cs.flatMap (fun c => c.toolUsage)) := by
  induction cs with
  | nil => intro r; rfl
  | cons c cs ih =>
    intro r
    rw [List.foldl_cons, ih, List.flatMap_cons, accW_append]
    rfl

/-- The nested models field of a project entry after folding a batch. -/
theorem foldl_projStep_models (cs : List Conv) : ∀ r : ProjStat,
    (cs.foldl (fun r c => projStep c r) r).models =
      accW (fun e => e.1) updPModel dPModel r.models
        (cs.flatMap (fun c => c.models)) := by
  induction cs with
  | nil => intro r; rfl
  | cons c cs ih =>
    intro r
    rw [List.foldl_cons, ih, List.flatMap_cons, accW_append]
    rfl

/-- Every per-project readback of the project map - numeric totals, nested
per-tool totals, nested per-model totals - is invariant under permutation
of the conversation list. -/
theorem projMap_lookup_facts {l1 l2 : List Conv} (h : l1.Perm l2) (p : String) :
    ((List.lookup p (projMap l1)).map projNums =
      (List.lookup p (projMap l2)).map projNums) ∧
    (∀ t, projToolLookup l1 p t = projToolLookup l2 p t) ∧
    (∀ mo, projModelLookup l1 p mo = projModelLookup l2 p mo) := by
  have hfp := h.filter (fun c => decide (c.projectName = p))
  cases hc1 : l1.filter (fun c => decide (c.projectName = p)) with
  | nil =>
    have hc2 : l2.filter (fun c => decide (c.projectName = p)) = [] := by
      have h' := hfp
      rw [hc1] at h'
      exact h'.symm.eq_nil
    have hn1 : List.lookup p (projMap l1) = none :=
      lookup_accW_none_nil _ _ _ p l1 [] rfl hc1
    have hn2 : List.lookup p (projMap l2) = none :=
      lookup_accW_none_nil _ _ _ p l2 [] rfl hc2
    refine ⟨by rw [hn1, hn2], fun t => ?_, fun mo => ?_⟩
    · unfold projToolLookup
      rw [hn1, hn2]
    · unfold projModelLookup
      rw [hn1, hn2]
  | cons c0 rest =>
    have hne2 : l2.filter (fun c => decide (c.projectName = p)) ≠ [] := by
      intro hnil
      have h' := hfp
      rw [hc1, hnil] at h'
      exact absurd h'.eq_nil (by simp)
    obtain ⟨c0', rest2, hc2⟩ := List.exists_cons_of_ne_nil hne2
    have hv1 : List.lookup p (projMap l1) =
        some (rest.foldl (fun r c => projStep c r) (projStep c0 (projInit c0))) :=
      lookup_accW_none_cons _ _ _ p l1 [] c0 rest rfl hc1
    have hv2 : List.lookup p (projMap l2) =
        some (rest2.foldl (fun r c => projStep c r) (projStep c0' (projInit c0'))) :=
      lookup_accW_none_cons _ _ _ p l2 [] c0' rest2 rfl hc2
    have hmem1 : ∀ c ∈ c0 :: rest, c.projectName = p := by
      intro c hc
      have hcf : c ∈ l1.filter (fun c => decide (c.projectName = p)) := by
        rw [hc1]; exact hc
      simpa using (List.mem_filter.mp hcf).2
    have hmem2 : ∀ c ∈ c0' :: rest2, c.projectName = p := by
      intro c hc
      have hcf : c ∈ l2.filter (fun c => decide (c.projectName = p)) := by
        rw [hc2]; exact hc
      simpa using (List.mem_filter.mp hcf).2
    have hpf : (c0 :: rest).Perm (c0' :: rest2) := by
      rw [← hc1, ← hc2]
      exact hfp
    have hinit : projInit c0 = projInit c0' := by
      simp [projInit, hmem1 c0 (List.mem_cons_self _ _), hmem2 c0' (List.mem_cons_self _ _)]
    refine ⟨?_, fun t => ?_, fun mo => ?_⟩
    · rw [hv1, hv2]
      show some (projNums ((c0 :: rest).foldl (fun r c => projStep c r) (projInit c0))) =
        some (projNums ((c0' :: rest2).foldl (fun r c => projStep c r) (projInit c0')))
      rw [foldl_projStep_nums, foldl_projStep_nums, hinit,
          (hpf.map (fun c => c.totalCost)).sum_eq,
          (hpf.map (fun c => c.totalTokens.total)).sum_eq,
          (hpf.map (fun c => c.duration)).sum_eq, hpf.length_eq]
    · unfold projToolLookup
      rw [hv1, hv2]
      show List.lookup t
          (rest.foldl (fun r c => projStep c r) (projStep c0 (projInit c0))).toolUsage =
        List.lookup t
          (rest2.foldl (fun r c => projStep c r) (projStep c0' (projInit c0'))).toolUsage
      have t1 : (rest.foldl (fun r c => projStep c r)
            (projStep c0 (projInit c0))).toolUsage =
          accW (fun e => e.1) updPTool dPTool []
            ((c0 :: rest).flatMap (fun c => c.toolUsage)) :=
        foldl_projStep_tools (c0 :: rest) (projInit c0)
      have t2 : (rest2.foldl (fun r c => projStep c r)
            (projStep c0' (projInit c0'))).toolUsage =
          accW (fun e => e.1) updPTool dPTool []
            ((c0' :: rest2).flatMap (fun c => c.toolUsage)) :=
        foldl_projStep_tools (c0' :: rest2) (projInit c0')
      rw [t1, t2]
      exact lookup_accW_perm (fun e => e.1) updPTool dPTool t
        (fun x y _ _ a => updPTool_comm x y a)
        (fun x y _ _ => rfl)
        (hpf.flatMap_right _)
    · unfold projModelLookup
      rw [hv1, hv2]
      show List.lookup mo
          (rest.foldl (fun r c => projStep c r) (projStep c0 (projInit c0))).models =
        List.lookup mo
          (rest2.foldl (fun r c => projStep c r) (projStep c0' (projInit c0'))).models
      have t1 : (rest.foldl (fun r c => projStep c r)
            (projStep c0 (projInit c0))).models =
          accW (fun e => e.1) updPModel dPModel []
            ((c0 :: rest).flatMap (fun c => c.models)) :=
        foldl_projStep_models (c0 :: rest) (projInit c0)
      have t2 : (rest2.foldl (fun r c => projStep c r)
            (projStep c0' (projInit c0'))).models =
          accW (fun e => e.1) updPModel dPModel []
            ((c0' :: rest2).flatMap (fun c => c.models)) :=
        foldl_projStep_models (c0' :: rest2) (projInit c0')
      rw [t1, t2]
      exact lookup_accW_perm (fun e => e.1) updPModel dPModel mo
        (fun x y _ _ a => updPModel_comm x y a)
        (fun x y _ _ => rfl)
        (hpf.flatMap_right _)

/-- C7: for every two orderings (permutations) of the same conversation
set, the aggregation runs agree on every total: `getTotalStats` returns the
identical record (overall cost, tokens, messages, duration, count and
averages), the per-tool and per-model aggregates contain exactly the same
records up to output order (so every per-tool and per-model total is
identical; only the ranking of entries with equal sort keys may differ,
as the sort is stable on each run's own insertion order), and for every
project name the project map yields identical numeric totals and identical
nested per-tool and per-model totals. -/
theorem c7_aggregation_perm_invariant (l1 l2 : List Conv) (h : l1.Perm l2) :
    getTotalStats l1 = getTotalStats l2 ∧
    (aggregateToolUsage l1).Perm (aggregateToolUsage l2) ∧
    (aggregateModelUsage l1).Perm (aggregateModelUsage l2) ∧
    (∀ p, (List.lookup p (projMap l1)).map projNums =
      (List.lookup p (projMap l2)).map projNums) ∧
    (∀ p t, projToolLookup l1 p t = projToolLookup l2 p t) ∧
    (∀ p mo, projModelLookup l1 p mo = projModelLookup l2 p mo) := by
  have hcw : (getConversationsWithCosts l1).Perm (getConversationsWithCosts l2) :=
    ((List.mergeSort_perm _ _).trans (h.filter _)).trans (List.mergeSort_perm _ _).symm
  have hlen : (getConversationsWithCosts l1).length = (getConversationsWithCosts l2).length :=
    hcw.length_eq
  have h1 : (getConversationsWithCosts l1).foldl (fun s c => s + c.totalCost) 0 =
      (getConversationsWithCosts l2).foldl (fun s c => s + c.totalCost) 0 := by
    rw [foldl_add_proj, foldl_add_proj, (hcw.map (fun c => c.totalCost)).sum_eq]
  have h2 : (getConversationsWithCosts l1).foldl (fun s c => s + c.totalTokens.total) 0 =
      (getConversationsWithCosts l2).foldl (fun s c => s + c.totalTokens.total) 0 := by
    rw [foldl_add_proj, foldl_add_proj, (hcw.map (fun c => c.totalTokens.total)).sum_eq]
  have h3 : (getConversationsWithCosts l1).foldl (fun s c => s + c.messageCount) 0 =
      (getConversationsWithCosts l2).foldl (fun s c => s + c.messageCount) 0 := by
    rw [foldl_add_proj, foldl_add_proj, (hcw.map (fun c => c.messageCount)).sum_eq]
  have h4 : (getConversationsWithCosts l1).foldl (fun s c => s + c.duration) 0 =
      (getConversationsWithCosts l2).foldl (fun s c => s + c.duration) 0 := by
    rw [foldl_add_proj, foldl_add_proj, (hcw.map (fun c => c.duration)).sum_eq]
  refine ⟨?_, ?_, ?_, fun p => (projMap_lookup_facts h p).1,
    fun p t => (projMap_lookup_facts h p).2.1 t,
    fun p mo => (projMap_lookup_facts h p).2.2 mo⟩
  · simp only [getTotalStats]
    rw [h1, h2, h3, h4, hlen]
  · unfold aggregateToolUsage
    exact ((List.mergeSort_perm _ _).trans ((toolMap_perm h).map Prod.snd)).trans
      (List.mergeSort_perm _ _).symm
  · unfold aggregateModelUsage
    exact ((List.mergeSort_perm _ _).trans ((modelMap_perm h).map Prod.snd)).trans
      (List.mergeSort_perm _ _).symm

/-- A concrete conversation of project "alpha" using tool "Bash" and model
"m1", for exercising the aggregation pipeline. -/
def c7convA : Conv :=
  { conversationId := "a", sessionId := "a", conversationName := "a",
    conversationTitle := "a", totalCost := 1, totalTokens := ⟨10, 4, 6, 0, 0⟩,
    messageCount := 2, startTime := none, endTime := none, duration := 5,
    summary := "", firstUserMessage := "", messages := [],
    toolUsage := [("Bash", ⟨2, 1/2, 0, []⟩)], commands := [], errors := [],
    models := [("m1", ⟨1, 1, ⟨10, 4, 6, 0, 0⟩⟩)],
    workingDirectories := [], userTypes := [], serviceTiers := [],
    tokenBurnRate := [], projectPath := "/p/alpha", projectName := "alpha" }

/-- A second concrete conversation of the same project, using tool "Read"
and model "m2". -/
def c7convB : Conv :=
  { c7convA with
    conversationId := "b", totalCost := 2, totalTokens := ⟨20, 8, 12, 0, 0⟩,
    messageCount := 3, duration := 7,
    toolUsage := [("Read", ⟨1, 1/4, 0, []⟩), ("Bash", ⟨3, 3/4, 1, []⟩)],
    models := [("m2", ⟨2, 2, ⟨20, 8, 12, 0, 0⟩⟩)] }

theorem c7_aggregation_perm_invariant_witness :
    getTotalStats [c7convA, c7convB] = getTotalStats [c7convB, c7convA] ∧
    projToolLookup [c7convA, c7convB] "alpha" "Bash" =
      projToolLookup [c7convB, c7convA] "alpha" "Bash" :=
  ⟨(c7_aggregation_perm_invariant [c7convA, c7convB] [c7convB, c7convA]
      (List.Perm.swap c7convB c7convA [])).1,
    (c7_aggregation_perm_invariant [c7convA, c7convB] [c7convB, c7convA]
      (List.Perm.swap c7convB c7convA [])).2.2.2.2.1 "alpha" "Bash"⟩
